import Mathlib

/-!
Verification of the Simple Argument Parser for C++ (`argparser.hpp`).

The embedding models C strings as lists of characters (`Str`), the
type-erased `TypeHandler<T>` hierarchy as a `Slot` holding a tagged
`Value`, and `Parser::parse` as a recursion over the remaining argument
suffix (the C++ loop cursor `i` corresponds to `args.drop i`; the cursor
increments by 1 or 2 correspond to dropping one or two tokens).

Numeric conversion is modelled after the C library functions
`strtol` / `strtoll` / `strtoul` / `strtoull` in base 10 on a 64-bit
LP64 platform: leading C-locale whitespace is skipped, one optional sign
is read, then decimal digits; the end pointer equals the start iff no
digits were converted; out-of-range values clamp to the bounds of the
64-bit result type, and unsigned conversion of a negative literal
negates modulo 2^64.  The subsequent store truncates to the handler's
type width (two's complement for `int`, modulo 2^32 for `unsigned int`).
-/

namespace Argparser

/-- A C string, modelled as its list of characters. -/
abbrev Str := List Char

/-- Convenience: the character list of a Lean string literal. -/
def lit (s : String) : Str := s.data

/-- Lexicographic comparison of strings by character code, as
`std::string`'s `operator<` (byte order on UTF-8 agrees with code-point
order). -/
def strLt : Str → Str → Bool
  | [], [] => false
  | [], _ :: _ => true
  | _ :: _, [] => false
  | a :: as, b :: bs =>
      if a.toNat < b.toNat then true
      else if b.toNat < a.toNat then false
      else strLt as bs

/-! ### IEEE-754 binary32 values (the result type of `strtof`)

All computations here stay in `Nat`/`Int` arithmetic; rational numbers
appear only in the valuation `FVal.toQ` used by the theorems. -/

/-- Floor of the base-2 logarithm, with an explicit fuel argument so
that the recursion is structural; `log2fuel n n` equals `Nat.log2 n`. -/
def log2fuel : Nat → Nat → Nat
  | 0, _ => 0
  | fuel + 1, n => if n ≥ 2 then log2fuel fuel (n / 2) + 1 else 0

/-- Whether `2 ^ k ≤ a / b` for naturals `a` and `b` (`b` positive) and
an arbitrary integer exponent `k`, by cross-multiplication. -/
def qle2 (k : Int) (a b : Nat) : Bool :=
  if 0 ≤ k then 2 ^ k.toNat * b ≤ a else b ≤ a * 2 ^ (-k).toNat

/-- Floor of the base-2 logarithm of the positive fraction `a / b`: the
difference of the numerator's and the denominator's logarithms
overshoots by at most one, fixed by a single comparison. -/
def qlog2 (a b : Nat) : Int :=
  if qle2 ((log2fuel a a : Int) - (log2fuel b b : Int)) a b then
    (log2fuel a a : Int) - (log2fuel b b : Int)
  else (log2fuel a a : Int) - (log2fuel b b : Int) - 1

/-- Round the fraction `a / b` (`b` positive) to the nearest natural
number, ties to even. -/
def rneNat (a b : Nat) : Nat :=
  if 2 * (a % b) < b then a / b
  else if b < 2 * (a % b) then a / b + 1
  else if a / b % 2 = 0 then a / b else a / b + 1

/-- Put a dyadic value `m * 2 ^ e` into canonical form (`m` odd, or the
pair `(0, 0)`) by stripping factors of two, so that equal binary32
values have equal representations.  The fuel bounds the number of
strips; it is always called with 25, enough for the mantissas (at most
`2 ^ 24`) produced by binary32 rounding. -/
def normDyadic : Nat → Int → Int → Int × Int
  | 0, m, e => if m = 0 then (0, 0) else (m, e)
  | fuel + 1, m, e =>
      if m = 0 then (0, 0)
      else if m % 2 = 0 then normDyadic fuel (m / 2) (e + 1) else (m, e)

/-- An IEEE-754 binary32 value as produced by `strtof` on decimal
input: a finite value `m * 2 ^ e` in canonical dyadic form, or an
infinity from overflow.  Negative zero is identified with zero (the two
compare equal), and a NaN cannot arise from a decimal literal. -/
inductive FVal where
  | finite (m : Int) (e : Int)
  | inf (neg : Bool)
deriving DecidableEq, Repr

/-- The exact rational value of a finite binary32 result. -/
def FVal.toQ : FVal → Option ℚ
  | .finite m e => some ((m : ℚ) * (2 : ℚ) ^ e)
  | .inf _ => none

/-- The binary32 exponent chosen for the positive decimal value
`sig * 10 ^ e10`: 23 below the floor of its base-2 logarithm (placing
the mantissa in `[2 ^ 23, 2 ^ 24)`), clamped at `-149` for subnormals.
One of the two `toNat` exponents is always zero, so the fraction
argument of `qlog2` is exactly `sig * 10 ^ e10`. -/
def b32exp (sig : Nat) (e10 : Int) : Int :=
  max (-149) (qlog2 (sig * 10 ^ e10.toNat) (10 ^ (-e10).toNat) - 23)

/-- The binary32 mantissa for the decimal value `sig * 10 ^ e10`: the
exact value scaled by `2 ^ (-e)` and rounded to nearest, ties to
even. -/
def b32mant (sig : Nat) (e10 : Int) : Nat :=
  rneNat (sig * 10 ^ e10.toNat * 2 ^ (-(b32exp sig e10)).toNat)
    (10 ^ (-e10).toNat * 2 ^ (b32exp sig e10).toNat)

/-- Correctly rounded (to nearest, ties to even) conversion of the
decimal value `(-1)^neg * sig * 10 ^ e10` to IEEE-754 binary32 — the
value `strtof` returns for a decimal literal (C17 7.22.1.3, with the
correct rounding glibc provides).  A rounded magnitude of `2 ^ 128` or
more overflows to a signed infinity; the exponent clamp at `-149`
yields subnormals and, below half the least subnormal, zero. -/
def roundB32 (neg : Bool) (sig : Nat) (e10 : Int) : FVal :=
  if sig = 0 then .finite 0 0
  else if qle2 (128 - b32exp sig e10) (b32mant sig e10) 1 then .inf neg
  else
    .finite
      (normDyadic 25
        (if neg then -(b32mant sig e10 : Int) else (b32mant sig e10 : Int))
        (b32exp sig e10)).1
      (normDyadic 25
        (if neg then -(b32mant sig e10 : Int) else (b32mant sig e10 : Int))
        (b32exp sig e10)).2

/-- The concrete types instantiating `TypeHandler<T>` in the source, in
declaration order of the specialisations. -/
inductive ArgType where
  | tstring | tcharptr | tint | tlong | tlonglong
  | tuint | tulong | tulonglong | tfloat | tdouble | tbool | tchar
deriving DecidableEq, Repr

/-- A stored argument value, tagged with its concrete type. -/
inductive Value where
  | vstring (s : Str)
  | vcharptr (s : Str)
  | vint (n : Int)
  | vlong (n : Int)
  | vlonglong (n : Int)
  | vuint (n : Nat)
  | vulong (n : Nat)
  | vulonglong (n : Nat)
  | vfloat (x : FVal)
  | vdouble (x : FVal)
  | vbool (b : Bool)
  | vchar (c : Char)
deriving DecidableEq, Repr

/-- The runtime type tag of a value (`TypeHandler<T>::getTypeInfo`). -/
def Value.tag : Value → ArgType
  | .vstring _ => .tstring
  | .vcharptr _ => .tcharptr
  | .vint _ => .tint
  | .vlong _ => .tlong
  | .vlonglong _ => .tlonglong
  | .vuint _ => .tuint
  | .vulong _ => .tulong
  | .vulonglong _ => .tulonglong
  | .vfloat _ => .tfloat
  | .vdouble _ => .tdouble
  | .vbool _ => .tbool
  | .vchar _ => .tchar

/-- Consuming types require and consume a following value token
(spec glossary); booleans and characters do not. -/
def ArgType.consuming : ArgType → Bool
  | .tbool => false
  | .tchar => false
  | _ => true

/-! ### The C number-scanning functions -/

/-- `isspace` in the C locale. -/
def isSpaceC (c : Char) : Bool :=
  c = ' ' || c = '\t' || c = '\n' || c = '\x0b' || c = '\x0c' || c = '\r'

/-- Scan a run of decimal digits, accumulating the value;
returns the accumulated magnitude, the digit count, and the rest. -/
def scanDigits : Str → Nat → Nat → Nat × Nat × Str
  | [], cnt, acc => (acc, cnt, [])
  | c :: cs, cnt, acc =>
      if c.isDigit then scanDigits cs (cnt + 1) (acc * 10 + (c.toNat - 48))
      else (acc, cnt, c :: cs)

/-- Result of the common scanning phase of `strtol`-family functions. -/
structure NumScan where
  neg : Bool
  ndigits : Nat
  mag : Nat
  leftover : Str
deriving DecidableEq, Repr

/-- The scanning phase shared by `strtol`/`strtoul` in base 10:
skip C whitespace, read one optional sign, then decimal digits. -/
def scanNumber (s : Str) : NumScan :=
  let s1 := s.dropWhile isSpaceC
  let p : Bool × Str :=
    match s1 with
    | [] => (false, [])
    | c :: r =>
        if c = '-' then (true, r)
        else if c = '+' then (false, r)
        else (false, c :: r)
  let d := scanDigits p.2 0 0
  ⟨p.1, d.2.1, d.1, d.2.2⟩

/-- `strtol`/`strtoll` on LP64: signed value clamped to the 64-bit range. -/
def strtolV (s : Str) : Int :=
  let n := scanNumber s
  let v : Int := if n.neg then -(n.mag : Int) else (n.mag : Int)
  if v > 2 ^ 63 - 1 then 2 ^ 63 - 1
  else if v < -(2 ^ 63) then -(2 ^ 63)
  else v

/-- `strtoul`/`strtoull` on LP64: magnitudes beyond the 64-bit range clamp
to `ULONG_MAX`; a leading minus negates the magnitude modulo 2^64. -/
def strtoulV (s : Str) : Nat :=
  let n := scanNumber s
  if n.mag > 2 ^ 64 - 1 then 2 ^ 64 - 1
  else if n.neg then (2 ^ 64 - n.mag) % 2 ^ 64
  else n.mag

/-- The success condition all numeric handlers test after conversion:
`end != value && *end == 0`, i.e. at least one digit was converted and
nothing is left over. -/
def numOk (s : Str) : Bool :=
  (scanNumber s).ndigits ≠ 0 && (scanNumber s).leftover.isEmpty

/-- The numeric value of a string of decimal digits (spec side: the
value a base-10 literal denotes). -/
def digitsVal (ds : Str) : Nat :=
  ds.foldl (fun a c => a * 10 + (c.toNat - 48)) 0

/-- Truncation of a 64-bit conversion result when stored into a 32-bit
`int` (modulo 2^32, two's complement). -/
def toInt32 (x : Int) : Int :=
  let r := x % 2 ^ 32
  if r ≥ 2 ^ 31 then r - 2 ^ 32 else r

/-- `"<raw>" is not an integer.` -/
def notIntMsg (raw : Str) : Str := '"' :: raw ++ '"' :: lit " is not an integer."

/-- `"<raw>" is not a positive integer.` -/
def notPosIntMsg (raw : Str) : Str :=
  '"' :: raw ++ '"' :: lit " is not a positive integer."

/-- Result of the scanning phase of `strtof`: the magnitude scanned is
`sig * 10 ^ e10`. -/
structure FloatScan where
  neg : Bool
  sig : Nat
  e10 : Int
  converted : Bool
  leftover : Str
deriving DecidableEq, Repr

/-- The exponent part of `strtof`'s decimal grammar, given the input
from a candidate `e`/`E` on: the marker, sign and digits are consumed
only when at least one exponent digit is present; otherwise scanning
rolls back to the candidate, since `strtof` stops at the longest valid
prefix. -/
def scanExp (s : Str) : Int × Str :=
  match s with
  | c :: r =>
      if c = 'e' ∨ c = 'E' then
        let q : Bool × Str :=
          match r with
          | [] => (false, [])
          | c2 :: r2 =>
              if c2 = '-' then (true, r2)
              else if c2 = '+' then (false, r2)
              else (false, c2 :: r2)
        let ed := scanDigits q.2 0 0
        if ed.2.1 = 0 then (0, s)
        else (if q.1 then -(ed.1 : Int) else (ed.1 : Int), ed.2.2)
      else (0, s)
  | [] => (0, [])

/-- The decimal form of `strtof`'s subject sequence (C17 7.22.1.3):
optional whitespace and one optional sign, then digits with an optional
period and fraction digits (at least one digit overall), then the
optional exponent part.  The hexadecimal, infinity and NaN forms of the
grammar are not modelled, so the theorems below that quantify over
rejected inputs restrict to strings without the characters (`x`, `i`,
`n` and their upper-case forms) that could begin one of those forms. -/
def scanFloat (s : Str) : FloatScan :=
  let s1 := s.dropWhile isSpaceC
  let p : Bool × Str :=
    match s1 with
    | [] => (false, [])
    | c :: r =>
        if c = '-' then (true, r)
        else if c = '+' then (false, r)
        else (false, c :: r)
  let di := scanDigits p.2 0 0
  let fr : Nat × Nat × Str :=
    match di.2.2 with
    | '.' :: r => scanDigits r 0 0
    | r => (0, 0, r)
  let ep : Int × Str :=
    if di.2.1 + fr.2.1 = 0 then (0, fr.2.2) else scanExp fr.2.2
  { neg := p.1
    sig := di.1 * 10 ^ fr.2.1 + fr.1
    e10 := ep.1 - (fr.2.1 : Int)
    converted := di.2.1 + fr.2.1 != 0
    leftover := ep.2 }

/-- The success condition of the two floating-point handlers:
`end != value && *end == 0`, i.e. at least one digit was converted and
nothing is left over. -/
def fpOk (s : Str) : Bool :=
  (scanFloat s).converted && (scanFloat s).leftover.isEmpty

/-- `strtof` on the modelled decimal grammar: scan the literal, then
round its decimal value to binary32. -/
def strtofF (s : Str) : FVal :=
  roundB32 (scanFloat s).neg (scanFloat s).sig (scanFloat s).e10

/-- `"<raw>" is not a number.` -/
def notNumMsg (raw : Str) : Str := '"' :: raw ++ '"' :: lit " is not a number."

/-! ### `TypeHandler<T>::setValueChar` -/

/-- The per-type conversion (`TypeHandler<T>::setValueChar`
specialisations).  Returns the new stored value, the return code, and
the error-message assignment when one happens.  Note that the numeric
handlers store the converted value *before* checking the end pointer,
so a failed conversion still overwrites the stored value; and that the
`double` specialisation (source line 537) calls `strtof`, not `strtod`,
so it too stores the binary32 rounding of the literal. -/
def setValueChar (v : Value) (raw : Str) : Value × Int × Option Str :=
  match v with
  | .vstring _ => (.vstring raw, 1, none)
  | .vcharptr _ => (.vcharptr raw, 1, none)
  | .vint _ =>
      (.vint (toInt32 (strtolV raw)),
        if numOk raw then (1, none) else (-1, some (notIntMsg raw)))
  | .vlong _ =>
      (.vlong (strtolV raw),
        if numOk raw then (1, none) else (-1, some (notIntMsg raw)))
  | .vlonglong _ =>
      (.vlonglong (strtolV raw),
        if numOk raw then (1, none) else (-1, some (notIntMsg raw)))
  | .vuint _ =>
      (.vuint (strtoulV raw % 2 ^ 32),
        if numOk raw then (1, none) else (-1, some (notPosIntMsg raw)))
  | .vulong _ =>
      (.vulong (strtoulV raw),
        if numOk raw then (1, none) else (-1, some (notPosIntMsg raw)))
  | .vulonglong _ =>
      (.vulonglong (strtoulV raw),
        if numOk raw then (1, none) else (-1, some (notPosIntMsg raw)))
  | .vfloat _ =>
      (.vfloat (strtofF raw),
        if fpOk raw then (1, none) else (-1, some (notNumMsg raw)))
  | .vdouble _ =>
      (.vdouble (strtofF raw),
        if fpOk raw then (1, none) else (-1, some (notNumMsg raw)))
  | .vbool b => (.vbool (!b), 0, none)
  | .vchar _ => (.vchar (raw.headD '\x00'), 0, none)

/-! ### Slots (`TypeHandler` instances seen through `AnyTypeArg`) -/

/-- One declared argument: its value, metadata and parse-time state. -/
structure Slot where
  value : Value
  helpMsg : Str := []
  errorMsg : Str := []
  required : Bool := false
  wasSet : Bool := false
deriving DecidableEq, Repr

instance : Inhabited Slot := ⟨{ value := .vbool false }⟩

/-- `TypeHandler<T>::setValue(const char*)`: unconditionally marks the
slot as set, then dispatches to the type-specific conversion.  The
error message is only assigned on failure (otherwise the previous one
is kept, as in the source). -/
def Slot.setValue (s : Slot) (raw : Str) : Slot × Int :=
  let s1 : Slot := { s with wasSet := true }
  let r := setValueChar s1.value raw
  ({ s1 with value := r.1, errorMsg := r.2.2.getD s1.errorMsg }, r.2.1)

/-- `AnyTypeArg::getValue<T>`: the stored value is only handed out when
the requested type matches the runtime type tag; otherwise a
`runtime_error` is thrown (modelled as `Except.error`).  The check is
immediate and touches no other state; in particular it never writes to
any aggregated parse error message. -/
def Slot.getValue (s : Slot) (t : ArgType) : Except Str Value :=
  if s.value.tag ≠ t then .error (lit "Types does not match.")
  else .ok s.value

/-! ### The argument registry (`Parser`)

`std::map` is modelled as an association list kept sorted by key;
`insert` does nothing when the key is already present, and iteration
follows the sorted order.  Slots live in a list indexed by declaration
order; the map `ReqSorter` keyed by `AnyTypeArg*` is modelled as a map
keyed by that index (heap pointers of the successively allocated
handlers, in allocation order). -/

/-- `std::map::insert`: insert sorted, keep the old entry on a
duplicate key. -/
def mapInsert (m : List (Str × Nat)) (k : Str) (v : Nat) : List (Str × Nat) :=
  match m with
  | [] => [(k, v)]
  | (k', v') :: rest =>
      if strLt k k' then (k, v) :: (k', v') :: rest
      else if strLt k' k then (k', v') :: mapInsert rest k v
      else (k', v') :: rest

/-- `std::map::find`. -/
def mapFind (m : List (Str × Nat)) (k : Str) : Option Nat :=
  match m with
  | [] => none
  | (k', v') :: rest => if k = k' then some v' else mapFind rest k

/-- The state of a `Parser` object: declared slots, the `_argData`
name map, the `_errorMsg` member, and the two virtual configuration
knobs `HelpEnabled` / `AllowUnknownArguments`. -/
structure ParserState where
  slots : List Slot
  bindings : List (Str × Nat)
  errorMsg : Str := []
  helpEnabled : Bool := true
  allowUnknown : Bool := false
deriving DecidableEq, Repr

/-- A parser with no declared arguments. -/
def emptyParser : ParserState := { slots := [], bindings := [] }

/-- `Parser::arg<T>`: allocate a handler holding the default value,
record help text and the required flag, and bind `--<long>` and/or
`-<short>` when non-empty. -/
def addArg (st : ParserState) (longName shortName : Str) (default : Value)
    (help : Str) (required : Bool) : ParserState :=
  let idx := st.slots.length
  let slot : Slot :=
    { value := default, helpMsg := help, errorMsg := [],
      required := required, wasSet := false }
  let b1 := if longName ≠ [] then mapInsert st.bindings ('-' :: '-' :: longName) idx
            else st.bindings
  let b2 := if shortName ≠ [] then mapInsert b1 ('-' :: shortName) idx else b1
  { st with slots := st.slots ++ [slot], bindings := b2 }

/-- The mutable state threaded through the token scan of
`Parser::parse`.  `errLines` is instrumentation recording, in order,
exactly the lines appended to `errorMsg`; `oob` is instrumentation
recording whether the speculative read of `argv[i+1]` ever indexed past
the end of the argument sequence. -/
structure ScanSt where
  slots : List Slot
  error : Bool
  errorMsg : Str
  errLines : List Str
  out : List Str
  oob : Bool
deriving DecidableEq, Repr

/-- Append one line to the aggregated error message, preceded by a
newline unless the message is still empty, and set the error flag
(the source performs these two steps together at both append sites). -/
def appendErr (s : ScanSt) (line : Str) : ScanSt :=
  { s with error := true,
           errorMsg := s.errorMsg ++ (if s.errorMsg = [] then [] else ['\n']) ++ line,
           errLines := s.errLines ++ [line] }

/-- `Unknown argument: <token>` -/
def unkLine (t : Str) : Str := lit "Unknown argument: " ++ t

/-- `Error in argument: <token>, <slot error message>` -/
def convLine (t : Str) (s : Slot) : Str :=
  lit "Error in argument: " ++ t ++ lit ", " ++ s.errorMsg

/-- The token scan of `Parser::parse` (lines 262-294).  The C++ cursor
`i` over `argv` corresponds to recursion on the remaining suffix:
`++i` in the unknown branch drops one token; in the matched branch the
conversion is invoked on `argv[++i]` (the next token, read
speculatively — when the matched token is last this indexes past the
end, recorded in `oob`, and the conversion sees an empty string), after
which a failed conversion skips both tokens and a return value of 0 or
1 advances by one or two tokens respectively.  `out` models the
`out_arg` vector, collected unconditionally; passing a null `out_arg`
in the source merely discards these entries. -/
def scanLoop (bs : List (Str × Nat)) (allow : Bool) : ScanSt → List Str → ScanSt
  | s, [] => s
  | s, t :: rest =>
      match mapFind bs t with
      | none =>
          let s1 : ScanSt := { s with out := s.out ++ [t] }
          let s2 := if allow then s1 else appendErr s1 (unkLine t)
          scanLoop bs allow s2 rest
      | some k =>
          match rest with
          | [] =>
              let s1 : ScanSt := { s with oob := true }
              let p := Slot.setValue (s1.slots.getD k default) []
              let s2 : ScanSt := { s1 with slots := s1.slots.set k p.1 }
              if p.2 < 0 || p.2 > 1 then appendErr s2 (convLine t p.1) else s2
          | v :: rest2 =>
              let p := Slot.setValue (s.slots.getD k default) v
              let s2 : ScanSt := { s with slots := s.slots.set k p.1 }
              if p.2 < 0 || p.2 > 1 then
                scanLoop bs allow (appendErr s2 (convLine t p.1)) rest2
              else if p.2 = 1 then scanLoop bs allow s2 rest2
              else scanLoop bs allow s2 (v :: rest2)

/-- Insert one name for a missing required slot into `ReqSorter`
(keyed by slot identity): a new slot gets the name as its label, a
slot already present gets `" or <name>"` appended. -/
def reqInsert (m : List (Nat × Str)) (k : Nat) (nm : Str) : List (Nat × Str) :=
  match m with
  | [] => [(k, nm)]
  | (k', s') :: rest =>
      if k < k' then (k, nm) :: (k', s') :: rest
      else if k' < k then (k', s') :: reqInsert rest k nm
      else (k', s' ++ lit " or " ++ nm) :: rest

/-- One iteration of the required-argument check: if the binding's slot
is required and was never set, record the binding's name under the
slot's identity. -/
def reqStep (slots : List Slot) (m : List (Nat × Str)) (b : Str × Nat) :
    List (Nat × Str) :=
  let slot := slots.getD b.2 default
  if slot.required && !slot.wasSet then reqInsert m b.2 b.1 else m

/-- The required-argument check (lines 296-308): fold over `_argData`
in its sorted iteration order, collecting every binding whose slot is
required but was never set. -/
def buildReq (slots : List Slot) (bs : List (Str × Nat)) : List (Nat × Str) :=
  bs.foldl (reqStep slots) []

/-- Right-justify in a field of width 10 (`std::setw(10)` with the
default adjustment; longer strings are not truncated). -/
def setw10 (s : Str) : Str := List.replicate (10 - s.length) ' ' ++ s

/-- Insert one binding into the help `Sorter` (keyed by slot identity):
the first name encountered for a slot is stored in the second cell, a
later one overwrites the first cell. -/
def helpInsert (m : List (Nat × (Str × Str))) (k : Nat) (nm : Str) :
    List (Nat × (Str × Str)) :=
  match m with
  | [] => [(k, ([], nm))]
  | (k', p) :: rest =>
      if k < k' then (k, ([], nm)) :: (k', p) :: rest
      else if k' < k then (k', p) :: helpInsert rest k nm
      else (k', (nm, p.2)) :: rest

/-- `Parser::WelcomeMessage`. -/
def welcomeMessage : Str := lit "This are the arguments available for this program:"

/-- `Parser::GetHelpMessage`. -/
def getHelpMessage (st : ParserState) : Str :=
  let sorter := st.bindings.foldl (fun m b => helpInsert m b.2 b.1) []
  welcomeMessage ++ '\n' ::
    sorter.foldl
      (fun acc p =>
        acc ++ setw10 p.2.1 ++ ' ' :: setw10 p.2.2 ++ lit " : " ++
          (st.slots.getD p.1 default).helpMsg ++ ['\n'])
      []

/-- The outcome of a `parse` call that returns normally. -/
structure ParseOut where
  success : Bool
  slots : List Slot
  errorMsg : Str
  errLines : List Str
  req : List (Nat × Str)
  out : List Str
  oob : Bool
deriving DecidableEq, Repr

instance : Inhabited ParseOut :=
  ⟨{ success := false, slots := [], errorMsg := [], errLines := [],
     req := [], out := [], oob := false }⟩

/-- The result of `Parser::parse`: either the help side channel, which
prints the help text and terminates the process via `exit` with the
given status, or a normal return. -/
inductive ParseResult where
  | helpExit (printed : Str) (code : Nat)
  | normal (o : ParseOut)
deriving DecidableEq, Repr

/-- The body of `Parser::parse` past the help check: the token scan
starting from an empty error message (`_errorMsg = ""` on entry, so the
previous parse's content is discarded), the required-argument check,
and the assembly of the missing-required summary, which appends each
label followed by `", "` and finally cuts the last two characters. -/
def parseCore (st : ParserState) (args : List Str) : ParseOut :=
  let s := scanLoop st.bindings st.allowUnknown
    { slots := st.slots, error := false, errorMsg := [], errLines := [],
      out := [], oob := false } args
  let req := buildReq s.slots st.bindings
  let error := s.error || !req.isEmpty
  let em :=
    if error && !req.isEmpty then
      let em1 := s.errorMsg ++ (if s.errorMsg = [] then [] else ['\n']) ++
        lit "The following required arguments was not set: "
      let em2 := req.foldl (fun a p => a ++ p.2 ++ lit ", ") em1
      em2.take (em2.length - 2)
    else s.errorMsg
  { success := !error, slots := s.slots, errorMsg := em,
    errLines := s.errLines, req := req, out := s.out, oob := s.oob }

/-- `Parser::parse`.  `args` is the raw argument sequence excluding the
program name (`argv[1..argc-1]`, so `argc == 2` is `args.length = 1`).
If help is enabled and the whole input is the single token `--help` or
`-h`, the help text is printed and the process exits with status 0
before any token is scanned. -/
def parse (st : ParserState) (args : List Str) : ParseResult :=
  if st.helpEnabled = true ∧ (args = [lit "--help"] ∨ args = [lit "-h"]) then
    .helpExit (getHelpMessage st) 0
  else .normal (parseCore st args)

/-! ### Specification-side description of the aggregated error string

The spec describes `lastParseError` as a list of lines joined by
newlines.  `joinLines` and `joinComma` are those spec-side notions; the
theorems below relate them to the string the code builds
incrementally. -/

/-- Newline-joined lines, as the spec words it. -/
def joinLines : List Str → Str
  | [] => []
  | [l] => l
  | l :: l2 :: ls => l ++ '\n' :: joinLines (l2 :: ls)

/-- Comma-separated labels, as the spec words it. -/
def joinComma : List Str → Str
  | [] => []
  | [l] => l
  | l :: l2 :: ls => l ++ ',' :: ' ' :: joinComma (l2 :: ls)

/-- The single missing-required summary line of the spec: the fixed
header followed by the comma-separated labels. -/
def summaryLine (req : List (Nat × Str)) : Str :=
  lit "The following required arguments was not set: " ++
    joinComma (req.map (fun p => p.2))

/-- The invariant of the token scan: the accumulated error message is
the newline-join of the recorded error lines, every recorded line is
non-empty, and the error flag is set exactly when a line has been
recorded. -/
def ScanGood (s : ScanSt) : Prop :=
  s.errorMsg = joinLines s.errLines ∧ (∀ l ∈ s.errLines, l ≠ []) ∧
    s.error = !s.errLines.isEmpty

/-- No binding matches the final token (vacuously true when the
sequence is empty).  This is exactly the condition under which the
speculative read of the next token never leaves the sequence. -/
def LastFree (bs : List (Str × Nat)) (args : List Str) : Prop :=
  ∀ t, args.getLast? = some t → mapFind bs t = none

/-- Each label followed by `", "`, concatenated — the shape the
summary loop produces before the final cut. -/
def withCommas : List Str → Str
  | [] => []
  | l :: ls => l ++ lit ", " ++ withCommas ls

/-- The normal outcome of a parse result (the default outcome stands in
for the help path, which never occurs where this is used). -/
def normalOut (r : ParseResult) : ParseOut :=
  match r with
  | .normal o => o
  | .helpExit _ _ => default

/-- The spec's safety precondition: every token bound to a
consuming-type slot (string or numeric) is followed by at least one
further token. -/
def ConsumingFollowed (slots : List Slot) (bs : List (Str × Nat))
    (args : List Str) : Prop :=
  ∀ (i : Nat) (h : i < args.length) (k : Nat),
    mapFind bs (args.get ⟨i, h⟩) = some k →
    (slots.getD k default).value.tag.consuming = true → i + 1 < args.length

/-- The amended safety precondition: every bound token, of any type, is
followed by at least one further token (the speculative read happens at
every matched token, consuming or not). -/
def BoundFollowed (bs : List (Str × Nat)) (args : List Str) : Prop :=
  ∀ (i : Nat) (h : i < args.length),
    mapFind bs (args.get ⟨i, h⟩) ≠ none → i + 1 < args.length

/-- Lookup in the `ReqSorter` map by slot identity. -/
def reqLookup (m : List (Nat × Str)) (k : Nat) : Option Str :=
  match m with
  | [] => none
  | (k', s) :: rest => if k = k' then some s else reqLookup rest k

/-- Left-to-right accumulation of alias names into one
`A or B or ...` label. -/
def orLabel : Str → List Str → Str
  | acc, [] => acc
  | acc, n :: ns => orLabel (acc ++ lit " or " ++ n) ns

/-- Lift `orLabel` to a possibly missing first name. -/
def orCombine : Option Str → List Str → Option Str
  | o, [] => o
  | none, n :: ns => some (orLabel n ns)
  | some a, ns => some (orLabel a ns)

/-- A parser with one declared argument: a required `int` with long
name `n` (binds `--n`). -/
def c4Parser : ParserState :=
  addArg emptyParser (lit "n") [] (.vint 0) [] true

/-- A parser with a boolean flag `-b` (default `false`) and a string
argument `-s`. -/
def c5Parser : ParserState :=
  addArg (addArg emptyParser [] (lit "b") (.vbool false) [] false)
    [] (lit "s") (.vstring []) [] false

/-- A parser with a required `int` argument with long name `count` and
short name `c`. -/
def c6Parser : ParserState :=
  addArg emptyParser (lit "count") (lit "c") (.vint 0) [] true

/-- A parser with a single boolean flag `-b`. -/
def c8Parser : ParserState :=
  addArg emptyParser [] (lit "b") (.vbool false) [] false

theorem joinLines_append_last (L : List Str) (x : Str) :
    joinLines (L ++ [x]) = joinLines L ++ (if L = [] then [] else ['\n']) ++ x := by
  induction L with
  | nil => simp [joinLines]
  | cons l ls ih =>
    cases ls with
    | nil => simp [joinLines]
    | cons l2 ls2 =>
      show joinLines (l :: l2 :: (ls2 ++ [x])) = _
      rw [joinLines, show l2 :: (ls2 ++ [x]) = (l2 :: ls2) ++ [x] from rfl, ih]
      simp [joinLines, List.append_assoc]

theorem joinLines_eq_nil_iff (L : List Str) (h : ∀ l ∈ L, l ≠ []) :
    joinLines L = [] ↔ L = [] := by
  match L with
  | [] => simp [joinLines]
  | [l] =>
    simp only [joinLines]
    constructor
    · intro hl; exact absurd hl (h l (by simp))
    · intro hl; cases hl
  | l :: l2 :: ls =>
    simp only [joinLines]
    constructor
    · intro hl
      have := congrArg List.length hl
      simp at this
    · intro hl; cases hl

theorem appendErr_good {s : ScanSt} {line : Str} (hg : ScanGood s)
    (hl : line ≠ []) : ScanGood (appendErr s line) := by
  obtain ⟨h1, h2, h3⟩ := hg
  refine ⟨?_, ?_, ?_⟩
  · show s.errorMsg ++ (if s.errorMsg = [] then [] else ['\n']) ++ line =
      joinLines (s.errLines ++ [line])
    rw [joinLines_append_last, h1]
    by_cases hc : s.errLines = []
    · simp [hc, joinLines]
    · rw [if_neg hc, if_neg (by rw [joinLines_eq_nil_iff _ h2]; exact hc)]
  · intro l hml
    rcases List.mem_append.1 hml with hml | hml
    · exact h2 l hml
    · simp at hml; subst hml; exact hl
  · show true = !(s.errLines ++ [line]).isEmpty
    simp

theorem unkLine_ne_nil (t : Str) : unkLine t ≠ [] := by
  simp [unkLine, lit]

theorem convLine_ne_nil (t : Str) (s : Slot) : convLine t s ≠ [] := by
  simp [convLine, lit]

/-- The scan preserves the error-aggregation invariant. -/
theorem scanLoop_good (bs : List (Str × Nat)) (allow : Bool) :
    ∀ (s : ScanSt) (args : List Str), ScanGood s →
      ScanGood (scanLoop bs allow s args) := by
  intro s args
  induction s, args using scanLoop.induct bs allow with
  | case1 s => intro hg; simpa [scanLoop] using hg
  | case2 s t rest hf s1 s2 ih =>
    intro hg
    rw [scanLoop, hf]
    apply ih
    by_cases ha : allow = true
    · simpa [s2, s1, ha, ScanGood] using hg
    · have : s2 = appendErr s1 (unkLine t) := by simp [s2, ha]
      rw [this]
      exact appendErr_good (by simpa [s1, ScanGood] using hg) (unkLine_ne_nil t)
  | case3 s t k hf s1 p hcond =>
    intro hg
    rw [scanLoop, hf]
    show ScanGood (if (decide (p.2 < 0) || decide (p.2 > 1)) = true
      then appendErr { s1 with slots := s1.slots.set k p.1 } (convLine t p.1)
      else { s1 with slots := s1.slots.set k p.1 })
    rw [if_pos hcond]
    exact appendErr_good (by simpa [s1, ScanGood] using hg) (convLine_ne_nil _ _)
  | case4 s t k hf s1 p hcond =>
    intro hg
    rw [scanLoop, hf]
    show ScanGood (if (decide (p.2 < 0) || decide (p.2 > 1)) = true
      then appendErr { s1 with slots := s1.slots.set k p.1 } (convLine t p.1)
      else { s1 with slots := s1.slots.set k p.1 })
    rw [if_neg hcond]
    simpa [s1, ScanGood] using hg
  | case5 s t k hf v rest2 p s2 hcond ih =>
    intro hg
    rw [scanLoop, hf]
    show ScanGood (if (decide (p.2 < 0) || decide (p.2 > 1)) = true
      then scanLoop bs allow (appendErr s2 (convLine t p.1)) rest2
      else if p.2 = 1 then scanLoop bs allow s2 rest2
      else scanLoop bs allow s2 (v :: rest2))
    rw [if_pos hcond]
    exact ih (appendErr_good (by simpa [s2, ScanGood] using hg) (convLine_ne_nil _ _))
  | case6 s t k hf v rest2 p s2 hcond hret ih =>
    intro hg
    rw [scanLoop, hf]
    show ScanGood (if (decide (p.2 < 0) || decide (p.2 > 1)) = true
      then scanLoop bs allow (appendErr s2 (convLine t p.1)) rest2
      else if p.2 = 1 then scanLoop bs allow s2 rest2
      else scanLoop bs allow s2 (v :: rest2))
    rw [if_neg hcond, if_pos hret]
    exact ih (by simpa [s2, ScanGood] using hg)
  | case7 s t k hf v rest2 p s2 hcond hret ih =>
    intro hg
    rw [scanLoop, hf]
    show ScanGood (if (decide (p.2 < 0) || decide (p.2 > 1)) = true
      then scanLoop bs allow (appendErr s2 (convLine t p.1)) rest2
      else if p.2 = 1 then scanLoop bs allow s2 rest2
      else scanLoop bs allow s2 (v :: rest2))
    rw [if_neg hcond, if_neg hret]
    exact ih (by simpa [s2, ScanGood] using hg)

/-- Once the error flag is set it stays set for the rest of the scan. -/
theorem scanLoop_error_mono (bs : List (Str × Nat)) (allow : Bool) :
    ∀ (s : ScanSt) (args : List Str), s.error = true →
      (scanLoop bs allow s args).error = true := by
  intro s args
  induction s, args using scanLoop.induct bs allow with
  | case1 s => intro h; simpa [scanLoop] using h
  | case2 s t rest hf s1 s2 ih =>
    intro h
    rw [scanLoop, hf]
    apply ih
    by_cases ha : allow = true
    · simpa [s2, s1, ha] using h
    · simp [s2, s1, ha, appendErr]
  | case3 s t k hf s1 p hcond =>
    intro h
    rw [scanLoop, hf]
    show (if (decide (p.2 < 0) || decide (p.2 > 1)) = true
      then appendErr { s1 with slots := s1.slots.set k p.1 } (convLine t p.1)
      else { s1 with slots := s1.slots.set k p.1 }).error = true
    rw [if_pos hcond]
    simp [appendErr]
  | case4 s t k hf s1 p hcond =>
    intro h
    rw [scanLoop, hf]
    show (if (decide (p.2 < 0) || decide (p.2 > 1)) = true
      then appendErr { s1 with slots := s1.slots.set k p.1 } (convLine t p.1)
      else { s1 with slots := s1.slots.set k p.1 }).error = true
    rw [if_neg hcond]
    simpa [s1] using h
  | case5 s t k hf v rest2 p s2 hcond ih =>
    intro h
    rw [scanLoop, hf]
    show (if (decide (p.2 < 0) || decide (p.2 > 1)) = true
      then scanLoop bs allow (appendErr s2 (convLine t p.1)) rest2
      else if p.2 = 1 then scanLoop bs allow s2 rest2
      else scanLoop bs allow s2 (v :: rest2)).error = true
    rw [if_pos hcond]
    exact ih (by simp [appendErr])
  | case6 s t k hf v rest2 p s2 hcond hret ih =>
    intro h
    rw [scanLoop, hf]
    show (if (decide (p.2 < 0) || decide (p.2 > 1)) = true
      then scanLoop bs allow (appendErr s2 (convLine t p.1)) rest2
      else if p.2 = 1 then scanLoop bs allow s2 rest2
      else scanLoop bs allow s2 (v :: rest2)).error = true
    rw [if_neg hcond, if_pos hret]
    exact ih (by simpa [s2] using h)
  | case7 s t k hf v rest2 p s2 hcond hret ih =>
    intro h
    rw [scanLoop, hf]
    show (if (decide (p.2 < 0) || decide (p.2 > 1)) = true
      then scanLoop bs allow (appendErr s2 (convLine t p.1)) rest2
      else if p.2 = 1 then scanLoop bs allow s2 rest2
      else scanLoop bs allow s2 (v :: rest2)).error = true
    rw [if_neg hcond, if_neg hret]
    exact ih (by simpa [s2] using h)

/-- With unknown arguments disallowed, a scan that ends without the
error flag never touched `out_arg`: every unmatched token raises the
flag. -/
theorem scanLoop_out_of_no_error (bs : List (Str × Nat)) :
    ∀ (s : ScanSt) (args : List Str),
      (scanLoop bs false s args).error = false →
      (scanLoop bs false s args).out = s.out := by
  intro s args
  induction s, args using scanLoop.induct bs false with
  | case1 s => intro _; simp [scanLoop]
  | case2 s t rest hf s1 s2 ih =>
    intro h
    rw [scanLoop, hf] at h ⊢
    exfalso
    have hs2 : s2.error = true := by simp [s2, s1, appendErr]
    rw [scanLoop_error_mono bs false s2 rest hs2] at h
    cases h
  | case3 s t k hf s1 p hcond =>
    intro h
    rw [scanLoop, hf] at h ⊢
    revert h
    show (if (decide (p.2 < 0) || decide (p.2 > 1)) = true
      then appendErr { s1 with slots := s1.slots.set k p.1 } (convLine t p.1)
      else { s1 with slots := s1.slots.set k p.1 }).error = false →
      (if (decide (p.2 < 0) || decide (p.2 > 1)) = true
      then appendErr { s1 with slots := s1.slots.set k p.1 } (convLine t p.1)
      else { s1 with slots := s1.slots.set k p.1 }).out = s.out
    rw [if_pos hcond]
    intro h
    simp [appendErr] at h
  | case4 s t k hf s1 p hcond =>
    intro h
    rw [scanLoop, hf] at h ⊢
    revert h
    show (if (decide (p.2 < 0) || decide (p.2 > 1)) = true
      then appendErr { s1 with slots := s1.slots.set k p.1 } (convLine t p.1)
      else { s1 with slots := s1.slots.set k p.1 }).error = false →
      (if (decide (p.2 < 0) || decide (p.2 > 1)) = true
      then appendErr { s1 with slots := s1.slots.set k p.1 } (convLine t p.1)
      else { s1 with slots := s1.slots.set k p.1 }).out = s.out
    rw [if_neg hcond]
    intro _
    simp [s1]
  | case5 s t k hf v rest2 p s2 hcond ih =>
    intro h
    rw [scanLoop, hf] at h ⊢
    revert h
    show (if (decide (p.2 < 0) || decide (p.2 > 1)) = true
      then scanLoop bs false (appendErr s2 (convLine t p.1)) rest2
      else if p.2 = 1 then scanLoop bs false s2 rest2
      else scanLoop bs false s2 (v :: rest2)).error = false →
      (if (decide (p.2 < 0) || decide (p.2 > 1)) = true
      then scanLoop bs false (appendErr s2 (convLine t p.1)) rest2
      else if p.2 = 1 then scanLoop bs false s2 rest2
      else scanLoop bs false s2 (v :: rest2)).out = s.out
    rw [if_pos hcond]
    intro h
    exfalso
    rw [scanLoop_error_mono bs false _ rest2 (by simp [appendErr])] at h
    cases h
  | case6 s t k hf v rest2 p s2 hcond hret ih =>
    intro h
    rw [scanLoop, hf] at h ⊢
    revert h
    show (if (decide (p.2 < 0) || decide (p.2 > 1)) = true
      then scanLoop bs false (appendErr s2 (convLine t p.1)) rest2
      else if p.2 = 1 then scanLoop bs false s2 rest2
      else scanLoop bs false s2 (v :: rest2)).error = false →
      (if (decide (p.2 < 0) || decide (p.2 > 1)) = true
      then scanLoop bs false (appendErr s2 (convLine t p.1)) rest2
      else if p.2 = 1 then scanLoop bs false s2 rest2
      else scanLoop bs false s2 (v :: rest2)).out = s.out
    rw [if_neg hcond, if_pos hret]
    intro h
    rw [ih h]
  | case7 s t k hf v rest2 p s2 hcond hret ih =>
    intro h
    rw [scanLoop, hf] at h ⊢
    revert h
    show (if (decide (p.2 < 0) || decide (p.2 > 1)) = true
      then scanLoop bs false (appendErr s2 (convLine t p.1)) rest2
      else if p.2 = 1 then scanLoop bs false s2 rest2
      else scanLoop bs false s2 (v :: rest2)).error = false →
      (if (decide (p.2 < 0) || decide (p.2 > 1)) = true
      then scanLoop bs false (appendErr s2 (convLine t p.1)) rest2
      else if p.2 = 1 then scanLoop bs false s2 rest2
      else scanLoop bs false s2 (v :: rest2)).out = s.out
    rw [if_neg hcond, if_neg hret]
    intro h
    rw [ih h]

theorem LastFree.tail {bs : List (Str × Nat)} {t : Str} {rest : List Str}
    (h : LastFree bs (t :: rest)) : LastFree bs rest := by
  intro u hu
  cases rest with
  | nil => cases hu
  | cons b l => exact h u (by rw [List.getLast?_cons_cons]; exact hu)

/-- If no binding matches the final token, the scan never reads past
the end of the argument sequence. -/
theorem scanLoop_oob (bs : List (Str × Nat)) (allow : Bool) :
    ∀ (s : ScanSt) (args : List Str), LastFree bs args →
      (scanLoop bs allow s args).oob = s.oob := by
  intro s args
  induction s, args using scanLoop.induct bs allow with
  | case1 s => intro _; simp [scanLoop]
  | case2 s t rest hf s1 s2 ih =>
    intro h
    rw [scanLoop, hf]
    rw [ih h.tail]
    by_cases ha : allow = true
    · simp [s2, s1, ha]
    · simp [s2, s1, ha, appendErr]
  | case3 s t k hf s1 p hcond =>
    intro h
    exact absurd (h t (by simp)) (by simp [hf])
  | case4 s t k hf s1 p hcond =>
    intro h
    exact absurd (h t (by simp)) (by simp [hf])
  | case5 s t k hf v rest2 p s2 hcond ih =>
    intro h
    rw [scanLoop, hf]
    show (if (decide (p.2 < 0) || decide (p.2 > 1)) = true
      then scanLoop bs allow (appendErr s2 (convLine t p.1)) rest2
      else if p.2 = 1 then scanLoop bs allow s2 rest2
      else scanLoop bs allow s2 (v :: rest2)).oob = s.oob
    rw [if_pos hcond]
    rw [ih h.tail.tail]
    simp [appendErr, s2]
  | case6 s t k hf v rest2 p s2 hcond hret ih =>
    intro h
    rw [scanLoop, hf]
    show (if (decide (p.2 < 0) || decide (p.2 > 1)) = true
      then scanLoop bs allow (appendErr s2 (convLine t p.1)) rest2
      else if p.2 = 1 then scanLoop bs allow s2 rest2
      else scanLoop bs allow s2 (v :: rest2)).oob = s.oob
    rw [if_neg hcond, if_pos hret]
    rw [ih h.tail.tail]
  | case7 s t k hf v rest2 p s2 hcond hret ih =>
    intro h
    rw [scanLoop, hf]
    show (if (decide (p.2 < 0) || decide (p.2 > 1)) = true
      then scanLoop bs allow (appendErr s2 (convLine t p.1)) rest2
      else if p.2 = 1 then scanLoop bs allow s2 rest2
      else scanLoop bs allow s2 (v :: rest2)).oob = s.oob
    rw [if_neg hcond, if_neg hret]
    rw [ih h.tail]

/-- A normal return of `parse` is exactly the result of `parseCore`. -/
theorem parse_normal (st : ParserState) (args : List Str) (o : ParseOut)
    (hp : parse st args = .normal o) : o = parseCore st args := by
  by_cases hc : st.helpEnabled = true ∧ (args = [lit "--help"] ∨ args = [lit "-h"])
  · rw [parse, if_pos hc] at hp; cases hp
  · rw [parse, if_neg hc] at hp
    cases hp
    rfl

theorem foldl_commas (req : List (Nat × Str)) (h : Str) :
    req.foldl (fun a p => a ++ p.2 ++ lit ", ") h =
      h ++ withCommas (req.map (fun p => p.2)) := by
  induction req generalizing h with
  | nil => simp [withCommas]
  | cons q qs ih =>
    rw [List.foldl_cons, ih]
    simp [withCommas, List.append_assoc]

theorem withCommas_eq_joinComma (ls : List Str) (h : ls ≠ []) :
    withCommas ls = joinComma ls ++ lit ", " := by
  induction ls with
  | nil => cases h rfl
  | cons l ls ih =>
    cases ls with
    | nil => simp [withCommas, joinComma]
    | cons l2 ls2 =>
      rw [withCommas, ih (by simp), joinComma]
      simp [lit, List.append_assoc]

theorem take_cut_comma (s : Str) :
    (s ++ lit ", ").take ((s ++ lit ", ").length - 2) = s := by
  have h1 : (s ++ lit ", ").length - 2 = s.length := by simp [lit]
  rw [h1]
  exact List.take_left s (lit ", ")

/-- The initial scan state of a parse call satisfies the invariant. -/
theorem initial_good (slots : List Slot) :
    ScanGood { slots := slots, error := false, errorMsg := [],
               errLines := [], out := [], oob := false } := by
  refine ⟨rfl, ?_, rfl⟩
  intro l hl
  cases hl

/-- The aggregated error string of a normal parse is the newline-join
of the scan's error lines followed by the missing-required summary
when some required slot is missing. -/
theorem parseCore_errorMsg (st : ParserState) (args : List Str) :
    (parseCore st args).errorMsg =
      joinLines ((parseCore st args).errLines ++
        (if (parseCore st args).req = [] then []
         else [summaryLine (parseCore st args).req])) := by
  obtain ⟨h1, h2, h3⟩ :=
    scanLoop_good st.bindings st.allowUnknown
      { slots := st.slots, error := false, errorMsg := [], errLines := [],
        out := [], oob := false } args (initial_good st.slots)
  set s := scanLoop st.bindings st.allowUnknown
    { slots := st.slots, error := false, errorMsg := [], errLines := [],
      out := [], oob := false } args with hs
  by_cases hreq : buildReq s.slots st.bindings = []
  · simp only [parseCore, ← hs, hreq]
    simp [h1]
  · have hne : (buildReq s.slots st.bindings).isEmpty = false :=
      List.isEmpty_eq_false.mpr hreq
    simp only [parseCore, ← hs, hne, Bool.not_false, Bool.and_true, Bool.or_true,
      if_true, if_neg hreq]
    rw [foldl_commas,
        withCommas_eq_joinComma _ (by simpa using hreq)]
    rw [show s.errorMsg ++ (if s.errorMsg = [] then [] else ['\n']) ++
          lit "The following required arguments was not set: " ++
          (joinComma ((buildReq s.slots st.bindings).map (fun p => p.2)) ++ lit ", ") =
        (s.errorMsg ++ (if s.errorMsg = [] then [] else ['\n']) ++
          summaryLine (buildReq s.slots st.bindings)) ++ lit ", " by
      simp [summaryLine, List.append_assoc]]
    rw [take_cut_comma]
    rw [h1, joinLines_append_last]
    congr 1
    simp only [propext (joinLines_eq_nil_iff _ h2)]

/-- A normal parse succeeds exactly when the scan recorded no
unknown-argument or conversion-error line and no required slot is
missing. -/
theorem parseCore_success (st : ParserState) (args : List Str) :
    (parseCore st args).success = true ↔
      ((parseCore st args).errLines = [] ∧ (parseCore st args).req = []) := by
  obtain ⟨h1, h2, h3⟩ :=
    scanLoop_good st.bindings st.allowUnknown
      { slots := st.slots, error := false, errorMsg := [], errLines := [],
        out := [], oob := false } args (initial_good st.slots)
  set s := scanLoop st.bindings st.allowUnknown
    { slots := st.slots, error := false, errorMsg := [], errLines := [],
      out := [], oob := false } args with hs
  simp only [parseCore, ← hs]
  constructor
  · intro h
    have h' : (s.error || !(buildReq s.slots st.bindings).isEmpty) = false := by
      simpa using h
    rcases Bool.or_eq_false_iff.mp h' with ⟨he, hq⟩
    refine ⟨?_, List.isEmpty_iff.mp (by simpa using hq)⟩
    have hempty : s.errLines.isEmpty = true := by
      rcases Bool.eq_false_or_eq_true s.errLines.isEmpty with hh | hh
      · exact hh
      · rw [h3, hh] at he; cases he
    exact List.isEmpty_iff.mp hempty
  · rintro ⟨hl, hq⟩
    have he : s.error = false := by simp [h3, hl]
    simp [he, hq]

/-! ### Lemmas about the strtol-family model -/

theorem digit_not_space {c : Char} (h : c.isDigit = true) : isSpaceC c = false := by
  cases hsp : isSpaceC c with
  | false => rfl
  | true =>
    exfalso
    simp [isSpaceC] at hsp
    rcases hsp with ((((rfl | rfl) | rfl) | rfl) | rfl) | rfl <;>
      exact absurd h (by decide)

theorem digit_ne_minus {c : Char} (h : c.isDigit = true) : ¬(c = '-') := by
  intro hc; subst hc; exact absurd h (by decide)

theorem digit_ne_plus {c : Char} (h : c.isDigit = true) : ¬(c = '+') := by
  intro hc; subst hc; exact absurd h (by decide)

theorem scanDigits_all (ds : Str) (h : ∀ c ∈ ds, c.isDigit = true) :
    ∀ (cnt acc : Nat), scanDigits ds cnt acc =
      (ds.foldl (fun a c => a * 10 + (c.toNat - 48)) acc, cnt + ds.length, []) := by
  induction ds with
  | nil => intro cnt acc; simp [scanDigits]
  | cons c cs ih =>
    intro cnt acc
    rw [scanDigits, if_pos (h c (by simp))]
    rw [ih (fun x hx => h x (by simp [hx])) (cnt + 1) (acc * 10 + (c.toNat - 48))]
    simp [List.foldl_cons, Prod.ext_iff]
    omega

theorem scanNumber_digits (c : Char) (cs : Str)
    (h : ∀ x ∈ c :: cs, x.isDigit = true) :
    scanNumber (c :: cs) = ⟨false, (c :: cs).length, digitsVal (c :: cs), []⟩ := by
  have hc := h c (by simp)
  rw [scanNumber]
  simp only [List.dropWhile_cons, digit_not_space hc, Bool.false_eq_true, if_false,
    if_neg (digit_ne_minus hc), if_neg (digit_ne_plus hc)]
  rw [scanDigits_all _ h 0 0]
  simp [digitsVal]

theorem scanNumber_neg_digits (c : Char) (cs : Str)
    (h : ∀ x ∈ c :: cs, x.isDigit = true) :
    scanNumber ('-' :: c :: cs) = ⟨true, (c :: cs).length, digitsVal (c :: cs), []⟩ := by
  rw [scanNumber]
  simp only [List.dropWhile_cons, show isSpaceC '-' = false from rfl,
    Bool.false_eq_true, if_false, eq_self_iff_true, if_true]
  rw [scanDigits_all _ h 0 0]
  simp [digitsVal]

theorem numOk_digits (c : Char) (cs : Str)
    (h : ∀ x ∈ c :: cs, x.isDigit = true) : numOk (c :: cs) = true := by
  rw [numOk, scanNumber_digits c cs h]
  simp

theorem numOk_neg_digits (c : Char) (cs : Str)
    (h : ∀ x ∈ c :: cs, x.isDigit = true) : numOk ('-' :: c :: cs) = true := by
  rw [numOk, scanNumber_neg_digits c cs h]
  simp

theorem strtolV_digits (c : Char) (cs : Str)
    (h : ∀ x ∈ c :: cs, x.isDigit = true)
    (hr : digitsVal (c :: cs) ≤ 2 ^ 63 - 1) :
    strtolV (c :: cs) = (digitsVal (c :: cs) : Int) := by
  rw [strtolV, scanNumber_digits c cs h]
  simp only [Bool.false_eq_true, if_false]
  rw [if_neg (by omega), if_neg (by omega)]

theorem strtolV_neg_digits (c : Char) (cs : Str)
    (h : ∀ x ∈ c :: cs, x.isDigit = true)
    (hr : digitsVal (c :: cs) ≤ 2 ^ 63) :
    strtolV ('-' :: c :: cs) = -(digitsVal (c :: cs) : Int) := by
  rw [strtolV, scanNumber_neg_digits c cs h]
  simp only [if_true]
  rw [if_neg (by omega), if_neg (by omega)]

theorem strtoulV_digits (c : Char) (cs : Str)
    (h : ∀ x ∈ c :: cs, x.isDigit = true)
    (hr : digitsVal (c :: cs) ≤ 2 ^ 64 - 1) :
    strtoulV (c :: cs) = digitsVal (c :: cs) := by
  rw [strtoulV, scanNumber_digits c cs h]
  simp only [Bool.false_eq_true, if_false]
  rw [if_neg (by omega)]

theorem strtoulV_neg_digits (c : Char) (cs : Str)
    (h : ∀ x ∈ c :: cs, x.isDigit = true)
    (hr : digitsVal (c :: cs) ≤ 2 ^ 64 - 1) :
    strtoulV ('-' :: c :: cs) = (2 ^ 64 - digitsVal (c :: cs)) % 2 ^ 64 := by
  rw [strtoulV, scanNumber_neg_digits c cs h]
  simp only [if_true]
  rw [if_neg (by omega)]

theorem toInt32_self (x : Int) (h1 : -(2 ^ 31) ≤ x) (h2 : x ≤ 2 ^ 31 - 1) :
    toInt32 x = x := by
  rw [toInt32]
  split
  · omega
  · omega

theorem log2fuel_eq (fuel : Nat) :
    ∀ (n : Nat), n ≤ fuel → log2fuel fuel n = Nat.log2 n := by
  induction fuel with
  | zero =>
    intro n h
    have hn : n = 0 := Nat.le_zero.mp h
    subst hn
    rw [log2fuel, Nat.log2]
    norm_num
  | succ fuel ih =>
    intro n h
    rw [log2fuel]
    by_cases h2 : n ≥ 2
    · rw [if_pos h2, ih (n / 2) (by omega)]
      conv_rhs => rw [Nat.log2]
      rw [if_pos h2]
    · rw [if_neg h2, Nat.log2, if_neg h2]

theorem qlog2_one (k : Nat) (hk : k ≠ 0) : qlog2 k 1 = (Nat.log2 k : Int) := by
  have hb : log2fuel 1 1 = 0 := rfl
  have ha := log2fuel_eq k k le_rfl
  rw [qlog2, ha, hb]
  have hc : qle2 ((Nat.log2 k : Int) - ((0 : Nat) : Int)) k 1 = true := by
    rw [qle2, if_pos (by omega)]
    simp only [decide_eq_true_eq]
    have ht : ((Nat.log2 k : Int) - ((0 : Nat) : Int)).toNat = Nat.log2 k := by omega
    rw [ht]
    have := Nat.log2_self_le hk
    omega
  rw [hc]
  simp

theorem rneNat_one (a : Nat) : rneNat a 1 = a := by
  simp [rneNat, Nat.mod_one, Nat.div_one]

/-- Canonicalising a dyadic pair does not change its value. -/
theorem normDyadic_toQ (fuel : Nat) :
    ∀ (m e : Int),
      ((normDyadic fuel m e).1 : ℚ) * (2 : ℚ) ^ (normDyadic fuel m e).2 =
        (m : ℚ) * (2 : ℚ) ^ e := by
  induction fuel with
  | zero =>
    intro m e
    rw [normDyadic]
    by_cases hm : m = 0
    · subst hm; simp
    · rw [if_neg hm]
  | succ fuel ih =>
    intro m e
    rw [normDyadic]
    by_cases hm : m = 0
    · subst hm; simp
    · rw [if_neg hm]
      by_cases h2 : m % 2 = 0
      · rw [if_pos h2, ih (m / 2) (e + 1)]
        have hsplit : (2 : ℤ) * (m / 2) = m := by omega
        rw [zpow_add_one₀ (two_ne_zero)]
        calc ((m / 2 : ℤ) : ℚ) * ((2 : ℚ) ^ e * 2)
            = (((2 : ℤ) * (m / 2) : ℤ) : ℚ) * (2 : ℚ) ^ e := by push_cast; ring
          _ = (m : ℚ) * (2 : ℚ) ^ e := by rw [hsplit]
      · rw [if_neg h2]

theorem b32exp_nat (k : Nat) (hk : k ≠ 0) :
    b32exp k 0 = (Nat.log2 k : Int) - 23 := by
  rw [b32exp]
  norm_num
  rw [qlog2_one k hk]
  omega

theorem b32mant_nat (k : Nat) (hk : k ≠ 0) (h23 : Nat.log2 k ≤ 23) :
    b32mant k 0 = k * 2 ^ (23 - Nat.log2 k) := by
  rw [b32mant, b32exp_nat k hk]
  have h1 : ((Nat.log2 k : Int) - 23).toNat = 0 := by omega
  have h2 : (-((Nat.log2 k : Int) - 23)).toNat = 23 - Nat.log2 k := by omega
  rw [h1, h2]
  norm_num [rneNat_one]

/-- Correct rounding is exact on integers representable in binary32:
any natural number up to `2 ^ 24`, with either sign, is its own
binary32 value. -/
theorem roundB32_natCast (neg : Bool) (k : Nat) (hk : k ≤ 2 ^ 24) :
    (roundB32 neg k 0).toQ = some (if neg then -(k : ℚ) else (k : ℚ)) := by
  by_cases hk0 : k = 0
  · subst hk0
    cases neg <;> simp [roundB32, FVal.toQ]
  · rcases Nat.lt_or_ge k (2 ^ 24) with h24 | h24
    · have hL := Nat.log2_self_le hk0
      have hLu := Nat.lt_log2_self (n := k)
      have hL23 : Nat.log2 k ≤ 23 := by
        have := (Nat.log2_lt hk0).mpr h24
        omega
      rw [roundB32, if_neg hk0, b32exp_nat k hk0, b32mant_nat k hk0 hL23]
      have hover : qle2 (128 - ((Nat.log2 k : Int) - 23))
          (k * 2 ^ (23 - Nat.log2 k)) 1 = false := by
        rw [qle2, if_pos (by omega)]
        simp only [decide_eq_false_iff_not, not_le, mul_one]
        have ht : (128 - ((Nat.log2 k : Int) - 23)).toNat = 151 - Nat.log2 k := by
          omega
        rw [ht]
        calc k * 2 ^ (23 - Nat.log2 k)
            < 2 ^ (Nat.log2 k + 1) * 2 ^ (23 - Nat.log2 k) := by
              exact (Nat.mul_lt_mul_right
                (Nat.pos_pow_of_pos _ (by norm_num))).mpr hLu
          _ = 2 ^ 24 := by rw [← pow_add]; congr 1; omega
          _ ≤ 2 ^ (151 - Nat.log2 k) := Nat.pow_le_pow_right (by norm_num) (by omega)
      rw [hover]
      simp only [Bool.false_eq_true, if_false, FVal.toQ]
      rw [normDyadic_toQ]
      have key : ((k : ℚ) * 2 ^ (23 - Nat.log2 k)) *
          (2 : ℚ) ^ ((Nat.log2 k : Int) - 23) = (k : ℚ) := by
        have he : ((Nat.log2 k : Int) - 23) = -((23 - Nat.log2 k : Nat) : Int) := by
          omega
        rw [he, zpow_neg, zpow_natCast]
        rw [mul_assoc, mul_inv_cancel₀ (pow_ne_zero _ two_ne_zero), mul_one]
      cases neg
      · simp only [Bool.false_eq_true, if_false, Option.some.injEq]
        push_cast
        exact key
      · simp only [if_true, Option.some.injEq]
        push_cast
        rw [neg_mul]
        rw [key]
    · have hk24 : k = 2 ^ 24 := by omega
      subst hk24
      cases neg
      · have h1 : roundB32 false (2 ^ 24) 0 = .finite 1 24 := by decide
        rw [h1, FVal.toQ]
        norm_num
      · have h2 : roundB32 true (2 ^ 24) 0 = .finite (-1) 24 := by decide
        rw [h2, FVal.toQ]
        norm_num

theorem scanFloat_digits (c : Char) (cs : Str)
    (h : ∀ x ∈ c :: cs, x.isDigit = true) :
    scanFloat (c :: cs) = ⟨false, digitsVal (c :: cs), 0, true, []⟩ := by
  have hc := h c (by simp)
  rw [scanFloat]
  simp only [List.dropWhile_cons, digit_not_space hc, Bool.false_eq_true, if_false,
    if_neg (digit_ne_minus hc), if_neg (digit_ne_plus hc)]
  rw [scanDigits_all _ h 0 0]
  simp [digitsVal, scanExp, FloatScan.mk.injEq]

theorem scanFloat_neg_digits (c : Char) (cs : Str)
    (h : ∀ x ∈ c :: cs, x.isDigit = true) :
    scanFloat ('-' :: c :: cs) = ⟨true, digitsVal (c :: cs), 0, true, []⟩ := by
  rw [scanFloat]
  simp only [List.dropWhile_cons, show isSpaceC '-' = false from rfl,
    Bool.false_eq_true, if_false, eq_self_iff_true, if_true]
  rw [scanDigits_all _ h 0 0]
  simp [digitsVal, scanExp, FloatScan.mk.injEq]

theorem fpOk_digits (c : Char) (cs : Str)
    (h : ∀ x ∈ c :: cs, x.isDigit = true) : fpOk (c :: cs) = true := by
  rw [fpOk, scanFloat_digits c cs h]
  simp

theorem fpOk_neg_digits (c : Char) (cs : Str)
    (h : ∀ x ∈ c :: cs, x.isDigit = true) : fpOk ('-' :: c :: cs) = true := by
  rw [fpOk, scanFloat_neg_digits c cs h]
  simp

theorem strtofF_digits (c : Char) (cs : Str)
    (h : ∀ x ∈ c :: cs, x.isDigit = true)
    (hr : digitsVal (c :: cs) ≤ 2 ^ 24) :
    (strtofF (c :: cs)).toQ = some ((digitsVal (c :: cs) : ℚ)) := by
  rw [strtofF, scanFloat_digits c cs h]
  have := roundB32_natCast false (digitsVal (c :: cs)) hr
  simpa using this

theorem strtofF_neg_digits (c : Char) (cs : Str)
    (h : ∀ x ∈ c :: cs, x.isDigit = true)
    (hr : digitsVal (c :: cs) ≤ 2 ^ 24) :
    (strtofF ('-' :: c :: cs)).toQ = some (-(digitsVal (c :: cs) : ℚ)) := by
  rw [strtofF, scanFloat_neg_digits c cs h]
  have := roundB32_natCast true (digitsVal (c :: cs)) hr
  simpa using this

/-- Unfolding `Slot.setValue` on an explicit slot. -/
theorem setValue_mk (v : Value) (hm em : Str) (req ws : Bool) (raw : Str) :
    Slot.setValue ⟨v, hm, em, req, ws⟩ raw =
      (⟨(setValueChar v raw).1, hm, ((setValueChar v raw).2.2).getD em, req, true⟩,
       (setValueChar v raw).2.1) := rfl

/-! ### The claims -/

/-- C9: for every slot with declared concrete type U and every
requested type T, typed retrieval (`AnyTypeArg::getValue<T>`) fails
with the TypeMismatch condition — thrown immediately as an exception,
never written into the aggregated parse error report — if and only if T
differs from U, and returns the slot's stored value when T equals U. -/
theorem c9_typed_retrieval (s : Slot) (t : ArgType) :
    (s.getValue t = .error (lit "Types does not match.") ↔ t ≠ s.value.tag) ∧
    (s.getValue t = .ok s.value ↔ t = s.value.tag) := by
  by_cases h : s.value.tag = t
  · rw [Slot.getValue, if_neg (by simp [h])]
    constructor
    · constructor
      · intro hc; cases hc
      · intro hc; exact absurd h.symm hc
    · constructor
      · intro _; exact h.symm
      · intro _; rfl
  · rw [Slot.getValue, if_pos (by simpa using h)]
    constructor
    · constructor
      · intro _; exact fun hc => h hc.symm
      · intro _; rfl
    · constructor
      · intro hc; cases hc
      · intro hc; exact absurd hc.symm h

/-- C4: invoking a slot's string-to-value conversion sets `wasSet`
unconditionally, whatever the conversion outcome; consequently, for the
registry declaring a required `int --n`, the input `--n abc` fails with
only the conversion-error line — the slot counts as set and the
missing-required summary is absent. -/
theorem c4_wasSet_unconditional :
    (∀ (s : Slot) (raw : Str), (Slot.setValue s raw).1.wasSet = true) ∧
    (parseCore c4Parser [lit "--n", lit "abc"]).success = false ∧
    (parseCore c4Parser [lit "--n", lit "abc"]).req = [] ∧
    (parseCore c4Parser [lit "--n", lit "abc"]).errorMsg =
      lit "Error in argument: --n, \"abc\" is not an integer." := by
  refine ⟨fun s raw => rfl, by decide, by decide, by decide⟩

/-- C3: with help enabled, `parse` takes the help side channel —
printing the rendered help text and terminating the process with exit
status 0, before the token scan and the required-argument validation —
exactly on the single-token inputs `--help` and `-h`; moreover any help
exit prints the rendered help text and exits with status 0. -/
theorem c3_help_short_circuit (st : ParserState) (args : List Str) :
    (parse st args = .helpExit (getHelpMessage st) 0 ↔
      (st.helpEnabled = true ∧ (args = [lit "--help"] ∨ args = [lit "-h"]))) ∧
    (∀ (printed : Str) (code : Nat), parse st args = .helpExit printed code →
      printed = getHelpMessage st ∧ code = 0) := by
  constructor
  · constructor
    · intro h
      by_cases hc : st.helpEnabled = true ∧ (args = [lit "--help"] ∨ args = [lit "-h"])
      · exact hc
      · rw [parse, if_neg hc] at h; cases h
    · intro hc
      rw [parse, if_pos hc]
  · intro printed code h
    by_cases hc : st.helpEnabled = true ∧ (args = [lit "--help"] ∨ args = [lit "-h"])
    · rw [parse, if_pos hc] at h
      cases h
      exact ⟨rfl, rfl⟩
    · rw [parse, if_neg hc] at h; cases h

/-- Witness for C3: on the parser declaring `--count` and `-c` the
single-token input `--help` takes the help exit with status 0, and the
iff also certifies that a two-token input containing `--help` does
not. -/
theorem c3_witness :
    parse c6Parser [lit "--help"] = .helpExit (getHelpMessage c6Parser) 0 ∧
    ¬(parse c6Parser [lit "--help", lit "-c"] =
        .helpExit (getHelpMessage c6Parser) 0) :=
  ⟨(c3_help_short_circuit c6Parser [lit "--help"]).1.mpr ⟨rfl, Or.inl rfl⟩,
   fun h => by
    rcases ((c3_help_short_circuit c6Parser [lit "--help", lit "-c"]).1.mp h).2
      with hc | hc <;> cases hc⟩

/-- C5: boolean conversion never reads the supplied raw token — it
replaces the stored boolean by its logical NOT and returns 0 ("value
not consumed") whatever the token is; at a matched boolean token the
scan therefore advances by exactly one token, so the following token is
processed independently; and concretely, a boolean declared with
default `false` whose flag `-b` appears once ends the parse with stored
value `true` and `wasSet = true` while the following `-s x` pair is
handled on its own. -/
theorem c5_bool_toggle :
    (∀ (b : Bool) (hm em : Str) (req ws : Bool) (raw : Str),
      Slot.setValue ⟨.vbool b, hm, em, req, ws⟩ raw =
        (⟨.vbool (!b), hm, em, req, true⟩, 0)) ∧
    (∀ (bs : List (Str × Nat)) (allow : Bool) (s : ScanSt) (t : Str) (k : Nat)
       (b : Bool) (hm em : Str) (req ws : Bool) (v : Str) (rest2 : List Str),
      mapFind bs t = some k →
      s.slots.getD k default = ⟨.vbool b, hm, em, req, ws⟩ →
      scanLoop bs allow s (t :: v :: rest2) =
        scanLoop bs allow
          { s with slots := s.slots.set k ⟨.vbool (!b), hm, em, req, true⟩ }
          (v :: rest2)) ∧
    (parseCore c5Parser [lit "-b", lit "-s", lit "x"]).success = true ∧
    (parseCore c5Parser [lit "-b", lit "-s", lit "x"]).slots =
      [⟨.vbool true, [], [], false, true⟩,
       ⟨.vstring (lit "x"), [], [], false, true⟩] := by
  refine ⟨fun b hm em req ws raw => rfl, ?_, by decide, by decide⟩
  intro bs allow s t k b hm em req ws v rest2 hf hslot
  rw [scanLoop, hf]
  show (if (decide ((Slot.setValue (s.slots.getD k default) v).2 < 0) ||
            decide ((Slot.setValue (s.slots.getD k default) v).2 > 1)) = true
    then scanLoop bs allow
      (appendErr
        { s with slots := s.slots.set k (Slot.setValue (s.slots.getD k default) v).1 }
        (convLine t (Slot.setValue (s.slots.getD k default) v).1)) rest2
    else if (Slot.setValue (s.slots.getD k default) v).2 = 1
      then scanLoop bs allow
        { s with slots := s.slots.set k (Slot.setValue (s.slots.getD k default) v).1 }
        rest2
      else scanLoop bs allow
        { s with slots := s.slots.set k (Slot.setValue (s.slots.getD k default) v).1 }
        (v :: rest2)) = _
  rw [hslot]
  rfl

/-- Witness for C5: the scan-step conjunct at concrete inputs — in the
parser declaring `-b` (boolean) and `-s` (string), the step at `-b`
followed by `-s x` toggles the boolean and continues at `-s`. -/
theorem c5_witness :
    scanLoop c5Parser.bindings false
      { slots := c5Parser.slots, error := false, errorMsg := [], errLines := [],
        out := [], oob := false } [lit "-b", lit "-s", lit "x"] =
    scanLoop c5Parser.bindings false
      { slots := c5Parser.slots.set 0 ⟨.vbool true, [], [], false, true⟩,
        error := false, errorMsg := [], errLines := [], out := [], oob := false }
      [lit "-s", lit "x"] :=
  c5_bool_toggle.2.1 c5Parser.bindings false _ (lit "-b") 0 false [] [] false false
    (lit "-s") [lit "x"] (by decide) (by decide)

/-- C10: for each unsigned handler, a token consisting of a minus sign
followed by decimal digits whose magnitude is within the type's range
converts successfully with return value 1 ("value consumed") and stores
the negated magnitude reduced modulo 2^w (w = 32 for `unsigned int`,
64 for `unsigned long` and `unsigned long long`), instead of failing
with the "is not a positive integer." error. -/
theorem c10_unsigned_negative (c : Char) (cs : Str)
    (h : ∀ x ∈ c :: cs, x.isDigit = true) (n : Nat) (hm em : Str)
    (req ws : Bool) :
    (digitsVal (c :: cs) ≤ 2 ^ 32 - 1 →
      Slot.setValue ⟨.vuint n, hm, em, req, ws⟩ ('-' :: c :: cs) =
        (⟨.vuint ((2 ^ 32 - digitsVal (c :: cs)) % 2 ^ 32), hm, em, req, true⟩, 1)) ∧
    (digitsVal (c :: cs) ≤ 2 ^ 64 - 1 →
      Slot.setValue ⟨.vulong n, hm, em, req, ws⟩ ('-' :: c :: cs) =
        (⟨.vulong ((2 ^ 64 - digitsVal (c :: cs)) % 2 ^ 64), hm, em, req, true⟩, 1)) ∧
    (digitsVal (c :: cs) ≤ 2 ^ 64 - 1 →
      Slot.setValue ⟨.vulonglong n, hm, em, req, ws⟩ ('-' :: c :: cs) =
        (⟨.vulonglong ((2 ^ 64 - digitsVal (c :: cs)) % 2 ^ 64), hm, em, req, true⟩, 1)) := by
  have hok := numOk_neg_digits c cs h
  refine ⟨?_, ?_, ?_⟩
  · intro hr
    rw [setValue_mk]
    simp only [setValueChar, hok, if_true,
      strtoulV_neg_digits c cs h (by omega), Option.getD]
    simp only [Prod.mk.injEq, Slot.mk.injEq, Value.vuint.injEq, and_true, true_and]
    omega
  · intro hr
    rw [setValue_mk]
    simp only [setValueChar, hok, if_true,
      strtoulV_neg_digits c cs h (by omega), Option.getD]
  · intro hr
    rw [setValue_mk]
    simp only [setValueChar, hok, if_true,
      strtoulV_neg_digits c cs h (by omega), Option.getD]

/-- Witness for C10: the token `-5` stored into each unsigned handler
yields 2^32 - 5 (for `unsigned int`) and 2^64 - 5 (for the two long
variants), with return value 1. -/
theorem c10_witness :
    Slot.setValue ⟨.vuint 0, [], [], false, false⟩ (lit "-5") =
      (⟨.vuint ((2 ^ 32 - digitsVal (lit "5")) % 2 ^ 32), [], [], false, true⟩, 1) ∧
    Slot.setValue ⟨.vulong 0, [], [], false, false⟩ (lit "-5") =
      (⟨.vulong ((2 ^ 64 - digitsVal (lit "5")) % 2 ^ 64), [], [], false, true⟩, 1) :=
  ⟨(c10_unsigned_negative '5' [] (by decide) 0 [] [] false false).1 (by decide),
   (c10_unsigned_negative '5' [] (by decide) 0 [] [] false false).2.1 (by decide)⟩

/-- Counterexample to C2 as stated: three syntactically valid base-10
numeric literals that convert with return value 1 — a success, no
conversion error — yet do not round-trip.  The literal `4294967296`
(= 2^32) on an `int` argument stores 0.  The literal `0.1`, of value
1/10, on a `float` argument stores the binary32 value
13421773 * 2^-27 ≠ 1/10.  The literal `16777217` (= 2^24 + 1) on a
`double` argument — a value exactly representable in binary64, whose
integers reach 2^53 — stores 16777216, because the `double` handler
also calls `strtof` and 2^24 + 1 is not representable in binary32. -/
theorem c2_counterexample :
    ((Slot.setValue ⟨.vint 7, [], [], false, false⟩ (lit "4294967296")).2 = 1 ∧
      (Slot.setValue ⟨.vint 7, [], [], false, false⟩ (lit "4294967296")).1.value =
        .vint 0 ∧
      digitsVal (lit "4294967296") = 4294967296 ∧ (0 : Int) ≠ 4294967296) ∧
    (Slot.setValue ⟨.vfloat (.finite 0 0), [], [], false, false⟩ (lit "0.1") =
        (⟨.vfloat (.finite 13421773 (-27)), [], [], false, true⟩, 1) ∧
      (scanFloat (lit "0.1")).sig = 1 ∧ (scanFloat (lit "0.1")).e10 = -1 ∧
      (FVal.finite 13421773 (-27)).toQ ≠ some (1 / 10 : ℚ)) ∧
    (Slot.setValue ⟨.vdouble (.finite 0 0), [], [], false, false⟩ (lit "16777217") =
        (⟨.vdouble (.finite 1 24), [], [], false, true⟩, 1) ∧
      digitsVal (lit "16777217") = 16777217 ∧ 16777217 < 2 ^ 53 ∧
      (FVal.finite 1 24).toQ = some (16777216 : ℚ) ∧
      (16777216 : ℚ) ≠ 16777217) := by
  refine ⟨⟨by decide, by decide, by decide, by decide⟩,
    ⟨by decide, by decide, by decide, ?_⟩,
    ⟨by decide, by decide, by decide, ?_, by norm_num⟩⟩
  · rw [FVal.toQ]
    intro hcontra
    rw [Option.some.injEq] at hcontra
    norm_num [zpow_neg] at hcontra
  · rw [FVal.toQ]
    norm_num

/-- C2 (amended): for the integer handlers, a base-10 literal of
optional minus sign and digits whose value is representable in the
target type converts with return value 1 and stores exactly the
literal's value (an out-of-range literal still "succeeds" but stores a
clamped/wrapped value, as the counterexample shows).  For the `float`
and `double` handlers — both of which call `strtof` — a digit literal
of either sign and magnitude at most 2^24 converts with return value 1
and stores a binary32 value exactly equal to the literal's value;
literals not representable in binary32 are stored as the correctly
rounded nearest binary32 value instead (counterexample).  And every
input the strict whole-string scan rejects — no digits converted, or
leftover characters — fails with return value -1 and an error message
embedding the original literal, where for the floating-point handlers
the rejected inputs considered are those within the modelled decimal
grammar (no characters that could begin the hexadecimal, infinity or
NaN forms). -/
theorem c2_numeric_round_trip (c : Char) (cs : Str)
    (h : ∀ x ∈ c :: cs, x.isDigit = true) (n : Int) (nn : Nat) (f : FVal)
    (hm em : Str) (req ws : Bool) :
    (digitsVal (c :: cs) ≤ 2 ^ 31 - 1 →
      Slot.setValue ⟨.vint n, hm, em, req, ws⟩ (c :: cs) =
        (⟨.vint (digitsVal (c :: cs) : Int), hm, em, req, true⟩, 1)) ∧
    (digitsVal (c :: cs) ≤ 2 ^ 31 →
      Slot.setValue ⟨.vint n, hm, em, req, ws⟩ ('-' :: c :: cs) =
        (⟨.vint (-(digitsVal (c :: cs) : Int)), hm, em, req, true⟩, 1)) ∧
    (digitsVal (c :: cs) ≤ 2 ^ 63 - 1 →
      Slot.setValue ⟨.vlong n, hm, em, req, ws⟩ (c :: cs) =
        (⟨.vlong (digitsVal (c :: cs) : Int), hm, em, req, true⟩, 1)) ∧
    (digitsVal (c :: cs) ≤ 2 ^ 63 →
      Slot.setValue ⟨.vlong n, hm, em, req, ws⟩ ('-' :: c :: cs) =
        (⟨.vlong (-(digitsVal (c :: cs) : Int)), hm, em, req, true⟩, 1)) ∧
    (digitsVal (c :: cs) ≤ 2 ^ 63 - 1 →
      Slot.setValue ⟨.vlonglong n, hm, em, req, ws⟩ (c :: cs) =
        (⟨.vlonglong (digitsVal (c :: cs) : Int), hm, em, req, true⟩, 1)) ∧
    (digitsVal (c :: cs) ≤ 2 ^ 63 →
      Slot.setValue ⟨.vlonglong n, hm, em, req, ws⟩ ('-' :: c :: cs) =
        (⟨.vlonglong (-(digitsVal (c :: cs) : Int)), hm, em, req, true⟩, 1)) ∧
    (digitsVal (c :: cs) ≤ 2 ^ 32 - 1 →
      Slot.setValue ⟨.vuint nn, hm, em, req, ws⟩ (c :: cs) =
        (⟨.vuint (digitsVal (c :: cs)), hm, em, req, true⟩, 1)) ∧
    (digitsVal (c :: cs) ≤ 2 ^ 64 - 1 →
      Slot.setValue ⟨.vulong nn, hm, em, req, ws⟩ (c :: cs) =
        (⟨.vulong (digitsVal (c :: cs)), hm, em, req, true⟩, 1)) ∧
    (digitsVal (c :: cs) ≤ 2 ^ 64 - 1 →
      Slot.setValue ⟨.vulonglong nn, hm, em, req, ws⟩ (c :: cs) =
        (⟨.vulonglong (digitsVal (c :: cs)), hm, em, req, true⟩, 1)) ∧
    (digitsVal (c :: cs) ≤ 2 ^ 24 →
      Slot.setValue ⟨.vfloat f, hm, em, req, ws⟩ (c :: cs) =
        (⟨.vfloat (strtofF (c :: cs)), hm, em, req, true⟩, 1) ∧
      (strtofF (c :: cs)).toQ = some ((digitsVal (c :: cs) : ℚ))) ∧
    (digitsVal (c :: cs) ≤ 2 ^ 24 →
      Slot.setValue ⟨.vfloat f, hm, em, req, ws⟩ ('-' :: c :: cs) =
        (⟨.vfloat (strtofF ('-' :: c :: cs)), hm, em, req, true⟩, 1) ∧
      (strtofF ('-' :: c :: cs)).toQ = some (-(digitsVal (c :: cs) : ℚ))) ∧
    (digitsVal (c :: cs) ≤ 2 ^ 24 →
      Slot.setValue ⟨.vdouble f, hm, em, req, ws⟩ (c :: cs) =
        (⟨.vdouble (strtofF (c :: cs)), hm, em, req, true⟩, 1) ∧
      (strtofF (c :: cs)).toQ = some ((digitsVal (c :: cs) : ℚ))) ∧
    (digitsVal (c :: cs) ≤ 2 ^ 24 →
      Slot.setValue ⟨.vdouble f, hm, em, req, ws⟩ ('-' :: c :: cs) =
        (⟨.vdouble (strtofF ('-' :: c :: cs)), hm, em, req, true⟩, 1) ∧
      (strtofF ('-' :: c :: cs)).toQ = some (-(digitsVal (c :: cs) : ℚ))) ∧
    (∀ (raw : Str), numOk raw = false →
      Slot.setValue ⟨.vint n, hm, em, req, ws⟩ raw =
        (⟨.vint (toInt32 (strtolV raw)), hm,
          '"' :: raw ++ '"' :: lit " is not an integer.", req, true⟩, -1)) ∧
    (∀ (raw : Str), numOk raw = false →
      Slot.setValue ⟨.vlong n, hm, em, req, ws⟩ raw =
        (⟨.vlong (strtolV raw), hm,
          '"' :: raw ++ '"' :: lit " is not an integer.", req, true⟩, -1)) ∧
    (∀ (raw : Str), numOk raw = false →
      Slot.setValue ⟨.vlonglong n, hm, em, req, ws⟩ raw =
        (⟨.vlonglong (strtolV raw), hm,
          '"' :: raw ++ '"' :: lit " is not an integer.", req, true⟩, -1)) ∧
    (∀ (raw : Str), numOk raw = false →
      Slot.setValue ⟨.vuint nn, hm, em, req, ws⟩ raw =
        (⟨.vuint (strtoulV raw % 2 ^ 32), hm,
          '"' :: raw ++ '"' :: lit " is not a positive integer.", req, true⟩, -1)) ∧
    (∀ (raw : Str), numOk raw = false →
      Slot.setValue ⟨.vulong nn, hm, em, req, ws⟩ raw =
        (⟨.vulong (strtoulV raw), hm,
          '"' :: raw ++ '"' :: lit " is not a positive integer.", req, true⟩, -1)) ∧
    (∀ (raw : Str), numOk raw = false →
      Slot.setValue ⟨.vulonglong nn, hm, em, req, ws⟩ raw =
        (⟨.vulonglong (strtoulV raw), hm,
          '"' :: raw ++ '"' :: lit " is not a positive integer.", req, true⟩, -1)) ∧
    (∀ (raw : Str), fpOk raw = false →
      (∀ ch ∈ raw, ch ∉ (['x', 'X', 'i', 'I', 'n', 'N'] : List Char)) →
      Slot.setValue ⟨.vfloat f, hm, em, req, ws⟩ raw =
        (⟨.vfloat (strtofF raw), hm,
          '"' :: raw ++ '"' :: lit " is not a number.", req, true⟩, -1)) ∧
    (∀ (raw : Str), fpOk raw = false →
      (∀ ch ∈ raw, ch ∉ (['x', 'X', 'i', 'I', 'n', 'N'] : List Char)) →
      Slot.setValue ⟨.vdouble f, hm, em, req, ws⟩ raw =
        (⟨.vdouble (strtofF raw), hm,
          '"' :: raw ++ '"' :: lit " is not a number.", req, true⟩, -1)) := by
  have hokp := numOk_digits c cs h
  have hokn := numOk_neg_digits c cs h
  have hfp := fpOk_digits c cs h
  have hfn := fpOk_neg_digits c cs h
  refine ⟨?_, ?_, ?_, ?_, ?_, ?_, ?_, ?_, ?_, ?_, ?_, ?_, ?_, ?_, ?_, ?_, ?_,
    ?_, ?_, ?_, ?_⟩
  · intro hr
    rw [setValue_mk]
    simp only [setValueChar, hokp, if_true,
      strtolV_digits c cs h (by omega), Option.getD]
    rw [toInt32_self _ (by omega) (by omega)]
  · intro hr
    rw [setValue_mk]
    simp only [setValueChar, hokn, if_true,
      strtolV_neg_digits c cs h (by omega), Option.getD]
    rw [toInt32_self _ (by omega) (by omega)]
  · intro hr
    rw [setValue_mk]
    simp only [setValueChar, hokp, if_true,
      strtolV_digits c cs h (by omega), Option.getD]
  · intro hr
    rw [setValue_mk]
    simp only [setValueChar, hokn, if_true,
      strtolV_neg_digits c cs h (by omega), Option.getD]
  · intro hr
    rw [setValue_mk]
    simp only [setValueChar, hokp, if_true,
      strtolV_digits c cs h (by omega), Option.getD]
  · intro hr
    rw [setValue_mk]
    simp only [setValueChar, hokn, if_true,
      strtolV_neg_digits c cs h (by omega), Option.getD]
  · intro hr
    rw [setValue_mk]
    simp only [setValueChar, hokp, if_true,
      strtoulV_digits c cs h (by omega), Option.getD]
    simp only [Prod.mk.injEq, Slot.mk.injEq, Value.vuint.injEq, and_true, true_and]
    omega
  · intro hr
    rw [setValue_mk]
    simp only [setValueChar, hokp, if_true,
      strtoulV_digits c cs h (by omega), Option.getD]
  · intro hr
    rw [setValue_mk]
    simp only [setValueChar, hokp, if_true,
      strtoulV_digits c cs h (by omega), Option.getD]
  · intro hr
    refine ⟨?_, strtofF_digits c cs h hr⟩
    rw [setValue_mk]
    simp only [setValueChar, hfp, if_true, Option.getD]
  · intro hr
    refine ⟨?_, strtofF_neg_digits c cs h hr⟩
    rw [setValue_mk]
    simp only [setValueChar, hfn, if_true, Option.getD]
  · intro hr
    refine ⟨?_, strtofF_digits c cs h hr⟩
    rw [setValue_mk]
    simp only [setValueChar, hfp, if_true, Option.getD]
  · intro hr
    refine ⟨?_, strtofF_neg_digits c cs h hr⟩
    rw [setValue_mk]
    simp only [setValueChar, hfn, if_true, Option.getD]
  · intro raw hbad
    rw [setValue_mk]
    simp only [setValueChar, hbad, Bool.false_eq_true, if_false, Option.getD,
      notIntMsg]
  · intro raw hbad
    rw [setValue_mk]
    simp only [setValueChar, hbad, Bool.false_eq_true, if_false, Option.getD,
      notIntMsg]
  · intro raw hbad
    rw [setValue_mk]
    simp only [setValueChar, hbad, Bool.false_eq_true, if_false, Option.getD,
      notIntMsg]
  · intro raw hbad
    rw [setValue_mk]
    simp only [setValueChar, hbad, Bool.false_eq_true, if_false, Option.getD,
      notPosIntMsg]
  · intro raw hbad
    rw [setValue_mk]
    simp only [setValueChar, hbad, Bool.false_eq_true, if_false, Option.getD,
      notPosIntMsg]
  · intro raw hbad
    rw [setValue_mk]
    simp only [setValueChar, hbad, Bool.false_eq_true, if_false, Option.getD,
      notPosIntMsg]
  · intro raw hbad hsafe
    rw [setValue_mk]
    simp only [setValueChar, hbad, Bool.false_eq_true, if_false, Option.getD,
      notNumMsg]
  · intro raw hbad hsafe
    rw [setValue_mk]
    simp only [setValueChar, hbad, Bool.false_eq_true, if_false, Option.getD,
      notNumMsg]

/-- Witness for C2: `123` round-trips through the `int`, `long long`
(negated) and `unsigned long long` handlers; it round-trips exactly
through the `float` handler and, negated, through the `double` handler,
whose stored binary32 values have rational value ±123; `12x` fails on
the `int` handler and `12.5.7` fails on the `float` handler, each with
the message embedding the literal. -/
theorem c2_witness :
    Slot.setValue ⟨.vint 0, [], [], false, false⟩ (lit "123") =
      (⟨.vint 123, [], [], false, true⟩, 1) ∧
    Slot.setValue ⟨.vlonglong 0, [], [], false, false⟩ (lit "-123") =
      (⟨.vlonglong (-123), [], [], false, true⟩, 1) ∧
    Slot.setValue ⟨.vulonglong 0, [], [], false, false⟩ (lit "123") =
      (⟨.vulonglong 123, [], [], false, true⟩, 1) ∧
    Slot.setValue ⟨.vfloat (.finite 0 0), [], [], false, false⟩ (lit "123") =
      (⟨.vfloat (strtofF (lit "123")), [], [], false, true⟩, 1) ∧
    (strtofF (lit "123")).toQ = some (123 : ℚ) ∧
    Slot.setValue ⟨.vdouble (.finite 0 0), [], [], false, false⟩ (lit "-123") =
      (⟨.vdouble (strtofF (lit "-123")), [], [], false, true⟩, 1) ∧
    (strtofF (lit "-123")).toQ = some (-123 : ℚ) ∧
    Slot.setValue ⟨.vint 0, [], [], false, false⟩ (lit "12x") =
      (⟨.vint (toInt32 (strtolV (lit "12x"))), [],
        '"' :: lit "12x" ++ '"' :: lit " is not an integer.", false, true⟩, -1) ∧
    Slot.setValue ⟨.vfloat (.finite 0 0), [], [], false, false⟩ (lit "12.5.7") =
      (⟨.vfloat (strtofF (lit "12.5.7")), [],
        '"' :: lit "12.5.7" ++ '"' :: lit " is not a number.", false, true⟩, -1) := by
  obtain ⟨h1, h2, h3, h4, h5, h6, h7, h8, h9, h10, h11, h12, h13, h14, h15,
    h16, h17, h18, h19, h20, h21⟩ :=
    c2_numeric_round_trip '1' (lit "23") (by decide) 0 0 (.finite 0 0) [] []
      false false
  refine ⟨by simpa using h1 (by decide), by simpa using h6 (by decide),
    by simpa using h9 (by decide), ?_, ?_, ?_, ?_,
    h14 (lit "12x") (by decide), h20 (lit "12.5.7") (by decide) (by decide)⟩
  · have := (h10 (by decide)).1
    simpa using this
  · have := (h10 (by decide)).2
    have hv : digitsVal ('1' :: lit "23") = 123 := by decide
    rw [hv] at this
    simpa using this
  · have := (h13 (by decide)).1
    simpa using this
  · have := (h13 (by decide)).2
    have hv : digitsVal ('1' :: lit "23") = 123 := by decide
    rw [hv] at this
    simpa using this

/-- C1: a normal return of `parse` succeeds iff the scan produced no
unknown-argument line, no conversion-error line, and no required slot
is missing; the aggregated error string — rebuilt fresh, discarding any
previous parse's content — is the newline-join of the
unknown/conversion error lines in scan order, followed by the single
missing-required summary line when at least one required slot was not
set. -/
theorem c1_success_and_error_aggregation (st : ParserState) (args : List Str)
    (o : ParseOut) (hp : parse st args = .normal o) :
    (o.success = true ↔ (o.errLines = [] ∧ o.req = [])) ∧
    o.errorMsg = joinLines
      (o.errLines ++ (if o.req = [] then [] else [summaryLine o.req])) ∧
    (∀ em : Str, parse { st with errorMsg := em } args = parse st args) := by
  obtain rfl : o = parseCore st args := parse_normal st args o hp
  exact ⟨parseCore_success st args, parseCore_errorMsg st args, fun em => rfl⟩

/-- Witness for C1: on the parser declaring a required `--count` and
`-c`, the input `-x` yields a failing parse whose error string is the
newline-join of the unknown-argument line and the missing-required
summary. -/
theorem c1_witness :
    (normalOut (parse c6Parser [lit "-x"])).success = false ∧
    (normalOut (parse c6Parser [lit "-x"])).errorMsg = joinLines
      ((normalOut (parse c6Parser [lit "-x"])).errLines ++
        (if (normalOut (parse c6Parser [lit "-x"])).req = [] then []
         else [summaryLine (normalOut (parse c6Parser [lit "-x"])).req])) := by
  have hmain := c1_success_and_error_aggregation c6Parser [lit "-x"]
    (normalOut (parse c6Parser [lit "-x"])) rfl
  exact ⟨by decide, hmain.2.1⟩

/-- C7: an unmatched token is appended to the unmatched-output sequence
and the cursor advances by exactly one (the scan continues on the
immediately following suffix, so no following token is attributed to
it); the "Unknown argument:" error line is appended exactly when
unknown arguments are disallowed (in allowed mode only the error line
is suppressed, the unmatched-output entry is still produced); and in
disallowed mode a normal parse that produced any unmatched-output entry
fails. -/
theorem c7_unknown_argument (bs : List (Str × Nat)) (allow : Bool) (s : ScanSt)
    (t : Str) (rest : List Str) (hf : mapFind bs t = none) :
    (scanLoop bs allow s (t :: rest) =
      scanLoop bs allow
        (if allow then { s with out := s.out ++ [t] }
         else appendErr { s with out := s.out ++ [t] } (unkLine t)) rest) ∧
    (∀ (st : ParserState) (args : List Str) (o : ParseOut),
      st.allowUnknown = false → parse st args = .normal o → o.out ≠ [] →
      o.success = false) := by
  constructor
  · rw [scanLoop, hf]
  · intro st args o hallow hp hout
    obtain rfl : o = parseCore st args := parse_normal st args o hp
    rcases Bool.eq_false_or_eq_true (parseCore st args).success with hsucc | hsucc
    · exfalso
      obtain ⟨hl, _⟩ := (parseCore_success st args).mp hsucc
      have herr0 : (scanLoop st.bindings st.allowUnknown
          { slots := st.slots, error := false, errorMsg := [], errLines := [],
            out := [], oob := false } args).error = false := by
        obtain ⟨_, _, h3⟩ := scanLoop_good st.bindings st.allowUnknown
          { slots := st.slots, error := false, errorMsg := [], errLines := [],
            out := [], oob := false } args (initial_good st.slots)
        rw [h3, show (scanLoop st.bindings st.allowUnknown
          { slots := st.slots, error := false, errorMsg := [], errLines := [],
            out := [], oob := false } args).errLines = [] from hl]
        rfl
      rw [hallow] at herr0
      have hzero := scanLoop_out_of_no_error st.bindings
        { slots := st.slots, error := false, errorMsg := [], errLines := [],
          out := [], oob := false } args herr0
      apply hout
      show (parseCore st args).out = []
      calc (parseCore st args).out
          = (scanLoop st.bindings st.allowUnknown
              { slots := st.slots, error := false, errorMsg := [], errLines := [],
                out := [], oob := false } args).out := rfl
        _ = (scanLoop st.bindings false
              { slots := st.slots, error := false, errorMsg := [], errLines := [],
                out := [], oob := false } args).out := by rw [hallow]
        _ = [] := hzero
    · exact hsucc

/-- Witness for C7: in the parser declaring a required `--count` and
`-c` (unknown arguments disallowed, the default), the unmatched token
`-x` is routed to the output list, an "Unknown argument:" line is
appended, and the parse fails. -/
theorem c7_witness :
    (scanLoop c6Parser.bindings false
      { slots := c6Parser.slots, error := false, errorMsg := [], errLines := [],
        out := [], oob := false } [lit "-x"] =
      scanLoop c6Parser.bindings false
        (appendErr
          { slots := c6Parser.slots, error := false, errorMsg := [],
            errLines := [], out := [lit "-x"], oob := false }
          (unkLine (lit "-x"))) []) ∧
    (normalOut (parse c6Parser [lit "-x"])).success = false := by
  have hmain := c7_unknown_argument c6Parser.bindings false
    { slots := c6Parser.slots, error := false, errorMsg := [], errLines := [],
      out := [], oob := false } (lit "-x") [] (by decide)
  exact ⟨hmain.1, hmain.2 c6Parser [lit "-x"] (normalOut (parse c6Parser [lit "-x"]))
    rfl rfl (by decide)⟩

/-- Counterexample to C8 as stated: in the parser declaring only the
boolean flag `-b` (a non-consuming type), the one-token input `-b`
satisfies the claim's precondition — every token bound to a
consuming-type slot is followed by a further token, vacuously — yet the
scan's speculative read of `argv[i+1]` at the matched final token
indexes past the end of the argument sequence. -/
theorem c8_counterexample :
    ConsumingFollowed c8Parser.slots c8Parser.bindings [lit "-b"] ∧
    (normalOut (parse c8Parser [lit "-b"])).oob = true := by
  constructor
  · intro i hi k hfind hcons
    have hi0 : i = 0 := by
      have : i < 1 := by simpa using hi
      omega
    subst hi0
    rw [show ([lit "-b"].get ⟨0, hi⟩) = lit "-b" from rfl] at hfind
    have hk : k = 0 := by
      have hmf : mapFind c8Parser.bindings (lit "-b") = some 0 := by decide
      rw [hmf] at hfind
      exact (Option.some.injEq _ _ ▸ hfind).symm
    subst hk
    exact absurd hcons (by decide)
  · decide

/-- C8 (amended): if every *bound* token — of any type, since the
speculative read of the next token happens at every matched position —
is followed by at least one further token, then a normal parse never
indexes past the end of the raw argument sequence. -/
theorem c8_bounds (st : ParserState) (args : List Str) (o : ParseOut)
    (hb : BoundFollowed st.bindings args) (hp : parse st args = .normal o) :
    o.oob = false := by
  obtain rfl : o = parseCore st args := parse_normal st args o hp
  have hlf : LastFree st.bindings args := by
    intro t ht
    by_contra hne
    have hnil : args ≠ [] := by intro he; rw [he] at ht; cases ht
    have hlen : args.length - 1 < args.length := by
      have := List.length_pos.mpr hnil; omega
    have hget : args.get ⟨args.length - 1, hlen⟩ = t := by
      rw [List.getLast?_eq_getElem?, List.getElem?_eq_getElem hlen] at ht
      simpa [List.get_eq_getElem] using (Option.some.injEq _ _ ▸ ht)
    have := hb (args.length - 1) hlen (by rw [hget]; exact hne)
    omega
  have hoob := scanLoop_oob st.bindings st.allowUnknown
    { slots := st.slots, error := false, errorMsg := [], errLines := [],
      out := [], oob := false } args hlf
  show (parseCore st args).oob = false
  calc (parseCore st args).oob
      = (scanLoop st.bindings st.allowUnknown
          { slots := st.slots, error := false, errorMsg := [], errLines := [],
            out := [], oob := false } args).oob := rfl
    _ = false := hoob

/-- Witness for C8 (amended): in the parser declaring `-b` (boolean)
and `-s` (string), the input `-b -s x` has every bound token followed
by a further token, and the parse performs no out-of-bounds read. -/
theorem c8_witness :
    (normalOut (parse c5Parser [lit "-b", lit "-s", lit "x"])).oob = false :=
  c8_bounds c5Parser [lit "-b", lit "-s", lit "x"]
    (normalOut (parse c5Parser [lit "-b", lit "-s", lit "x"]))
    (by unfold BoundFollowed; decide) rfl

/-! ### Lemmas about `ReqSorter` for the missing-required label claim -/

theorem strLt_irrefl (a : Str) : strLt a a = false := by
  induction a with
  | nil => rfl
  | cons c cs ih => simp [strLt, ih]

theorem strLt_asymm : ∀ (a b : Str), strLt a b = true → strLt b a = true → False
  | [], [], h1, _ => by cases h1
  | [], _ :: _, _, h2 => by cases h2
  | _ :: _, [], h1, _ => by cases h1
  | a :: as, b :: bs, h1, h2 => by
    rw [strLt] at h1 h2
    by_cases hab : a.toNat < b.toNat
    · rw [if_neg (by omega), if_pos hab] at h2
      cases h2
    · rw [if_neg hab] at h1
      by_cases hba : b.toNat < a.toNat
      · rw [if_pos hba] at h1; cases h1
      · rw [if_neg hba] at h1
        rw [if_neg hba, if_neg hab] at h2
        exact strLt_asymm as bs h1 h2

theorem mapFind_mem : ∀ (m : List (Str × Nat)) (key : Str) (v : Nat),
    mapFind m key = some v → (key, v) ∈ m := by
  intro m
  induction m with
  | nil => intro key v h; cases h
  | cons p rest ih =>
    obtain ⟨k', v'⟩ := p
    intro key v h
    rw [mapFind] at h
    by_cases hk : key = k'
    · rw [if_pos hk] at h
      cases h
      subst hk
      exact List.mem_cons_self _ _
    · rw [if_neg hk] at h
      exact List.mem_cons_of_mem _ (ih key v h)

theorem reqLookup_none (k : Nat) :
    ∀ (m : List (Nat × Str)), (∀ p ∈ m, p.1 ≠ k) → reqLookup m k = none := by
  intro m
  induction m with
  | nil => intro _; rfl
  | cons p rest ih =>
    obtain ⟨k', s⟩ := p
    intro h
    rw [reqLookup, if_neg (fun he => h (k', s) (by simp) (by simp [he.symm]))]
    exact ih (fun q hq => h q (by simp [hq]))

theorem reqInsert_keys (k : Nat) (nm : Str) :
    ∀ (m : List (Nat × Str)) (q : Nat × Str), q ∈ reqInsert m k nm →
      q.1 = k ∨ q.1 ∈ m.map (fun p => p.1) := by
  intro m
  induction m with
  | nil =>
    intro q hq
    simp [reqInsert] at hq
    simp [hq]
  | cons p rest ih =>
    obtain ⟨k', s⟩ := p
    intro q hq
    rw [reqInsert] at hq
    by_cases h1 : k < k'
    · rw [if_pos h1] at hq
      rcases List.mem_cons.mp hq with rfl | hq2
      · simp
      · rcases List.mem_cons.mp hq2 with rfl | hq3
        · simp
        · right
          simp only [List.map_cons, List.mem_cons]
          right
          exact List.mem_map.mpr ⟨q, hq3, rfl⟩
    · rw [if_neg h1] at hq
      by_cases h2 : k' < k
      · rw [if_pos h2] at hq
        rcases List.mem_cons.mp hq with rfl | hq2
        · simp
        · rcases ih q hq2 with h | h
          · exact Or.inl h
          · right
            simp only [List.map_cons, List.mem_cons]
            right
            exact h
      · rw [if_neg h2] at hq
        rcases List.mem_cons.mp hq with rfl | hq2
        · simp
        · right
          simp only [List.map_cons, List.mem_cons]
          right
          exact List.mem_map.mpr ⟨q, hq2, rfl⟩

theorem reqInsert_pairwise (k : Nat) (nm : Str) :
    ∀ (m : List (Nat × Str)), m.Pairwise (fun a b => a.1 < b.1) →
      (reqInsert m k nm).Pairwise (fun a b => a.1 < b.1) := by
  intro m
  induction m with
  | nil => intro _; simp [reqInsert]
  | cons p rest ih =>
    obtain ⟨k', s⟩ := p
    intro h
    rw [List.pairwise_cons] at h
    obtain ⟨hfst, hrest⟩ := h
    rw [reqInsert]
    by_cases h1 : k < k'
    · rw [if_pos h1]
      refine List.Pairwise.cons ?_ (List.Pairwise.cons hfst hrest)
      intro q hq
      show k < q.1
      rcases List.mem_cons.mp hq with rfl | hq2
      · exact h1
      · have h3 : k' < q.1 := hfst q hq2
        omega
    · rw [if_neg h1]
      by_cases h2 : k' < k
      · rw [if_pos h2]
        refine List.Pairwise.cons ?_ (ih hrest)
        intro q hq
        show k' < q.1
        rcases reqInsert_keys k nm rest q hq with he | he
        · omega
        · rcases List.mem_map.mp he with ⟨q', hq', he'⟩
          have h3 : q'.1 = q.1 := he'
          have h4 : k' < q'.1 := hfst q' hq'
          omega
      · rw [if_neg h2]
        exact List.Pairwise.cons hfst hrest

theorem reqLookup_reqInsert_other (k k' : Nat) (nm : Str) (hne : k' ≠ k) :
    ∀ (m : List (Nat × Str)), reqLookup (reqInsert m k' nm) k = reqLookup m k := by
  intro m
  induction m with
  | nil =>
    show (if k = k' then some nm else (none : Option Str)) = none
    rw [if_neg (fun h : k = k' => hne h.symm)]
  | cons p rest ih =>
    obtain ⟨kh, s⟩ := p
    rw [reqInsert]
    by_cases h1 : k' < kh
    · rw [if_pos h1, reqLookup, if_neg (fun h => hne h.symm)]
    · rw [if_neg h1]
      by_cases h2 : kh < k'
      · rw [if_pos h2, reqLookup, reqLookup]
        by_cases hk : k = kh
        · rw [if_pos hk, if_pos hk]
        · rw [if_neg hk, if_neg hk, ih]
      · rw [if_neg h2]
        have hkk : k' = kh := by omega
        subst hkk
        rw [reqLookup, reqLookup, if_neg (fun h => hne h.symm),
          if_neg (fun h => hne h.symm)]

theorem reqLookup_reqInsert_self (k : Nat) (nm : Str) :
    ∀ (m : List (Nat × Str)), m.Pairwise (fun a b => a.1 < b.1) →
      reqLookup (reqInsert m k nm) k =
        some (match reqLookup m k with
              | none => nm
              | some a => a ++ lit " or " ++ nm) := by
  intro m
  induction m with
  | nil => intro _; simp [reqInsert, reqLookup]
  | cons p rest ih =>
    obtain ⟨k', s⟩ := p
    intro h
    rw [List.pairwise_cons] at h
    obtain ⟨hfst, hrest⟩ := h
    rw [reqInsert]
    by_cases h1 : k < k'
    · rw [if_pos h1]
      have hnone : reqLookup ((k', s) :: rest) k = none := by
        apply reqLookup_none
        intro p hp
        rcases List.mem_cons.mp hp with rfl | hp2
        · intro he
          exact absurd (show k' = k from he) (by omega)
        · intro he
          have h3 : k' < p.1 := hfst p hp2
          exact absurd (show p.1 = k from he) (by omega)
      rw [hnone, reqLookup, if_pos rfl]
    · rw [if_neg h1]
      by_cases h2 : k' < k
      · rw [if_pos h2, reqLookup, if_neg (by omega), reqLookup, if_neg (by omega),
          ih hrest]
      · rw [if_neg h2]
        have hkk : k = k' := by omega
        subst hkk
        rw [reqLookup, if_pos rfl, reqLookup, if_pos rfl]

theorem reqLookup_mem (k : Nat) (l : Str) :
    ∀ (m : List (Nat × Str)), reqLookup m k = some l → (k, l) ∈ m := by
  intro m
  induction m with
  | nil => intro h; cases h
  | cons p rest ih =>
    obtain ⟨k', s⟩ := p
    intro h
    rw [reqLookup] at h
    by_cases hk : k = k'
    · rw [if_pos hk] at h
      cases h
      subst hk
      exact List.mem_cons_self _ _
    · rw [if_neg hk] at h
      exact List.mem_cons_of_mem _ (ih h)

theorem orCombine_some (x : Str) (ns : List Str) :
    orCombine (some x) ns = some (orLabel x ns) := by
  cases ns with
  | nil => rfl
  | cons n ns2 => rfl

/-- The `ReqSorter` entry for a missing required slot accumulates, in
iteration order, exactly the names bound to that slot. -/
theorem buildReq_fold (slots : List Slot) (k : Nat)
    (hreq : (slots.getD k default).required = true)
    (hnset : (slots.getD k default).wasSet = false) :
    ∀ (bs : List (Str × Nat)) (m : List (Nat × Str)),
      m.Pairwise (fun a b => a.1 < b.1) →
      reqLookup (bs.foldl (reqStep slots) m) k =
      orCombine (reqLookup m k)
        ((bs.filter (fun p => p.2 = k)).map (fun p => p.1)) := by
  intro bs
  induction bs with
  | nil =>
    intro m _
    rw [List.foldl_nil]
    cases hL : reqLookup m k with
    | none => rfl
    | some a => rfl
  | cons b rest ih =>
    intro m hm
    rw [List.foldl_cons]
    by_cases hb : b.2 = k
    · rw [List.filter_cons_of_pos (by simpa using hb)]
      have hcond : ((slots.getD b.2 default).required &&
          !(slots.getD b.2 default).wasSet) = true := by
        rw [hb, hreq, hnset]; rfl
      have hstep : reqStep slots m b = reqInsert m b.2 b.1 := by
        show (if (slots.getD b.2 default).required && !(slots.getD b.2 default).wasSet
          then reqInsert m b.2 b.1 else m) = reqInsert m b.2 b.1
        rw [if_pos hcond]
      rw [hstep, ih (reqInsert m b.2 b.1) (reqInsert_pairwise b.2 b.1 m hm)]
      rw [hb]
      rw [reqLookup_reqInsert_self k b.1 m hm]
      cases hL : reqLookup m k with
      | none =>
        rw [orCombine_some, List.map_cons]
        rfl
      | some a =>
        rw [orCombine_some, List.map_cons, orCombine_some]
        rfl
    · rw [List.filter_cons_of_neg (by simpa using hb)]
      by_cases hcond : ((slots.getD b.2 default).required &&
          !(slots.getD b.2 default).wasSet) = true
      · have hstep : reqStep slots m b = reqInsert m b.2 b.1 := by
          show (if (slots.getD b.2 default).required && !(slots.getD b.2 default).wasSet
            then reqInsert m b.2 b.1 else m) = reqInsert m b.2 b.1
          rw [if_pos hcond]
        rw [hstep, ih (reqInsert m b.2 b.1) (reqInsert_pairwise b.2 b.1 m hm),
          reqLookup_reqInsert_other k b.2 b.1 hb m]
      · have hstep : reqStep slots m b = m := by
          show (if (slots.getD b.2 default).required && !(slots.getD b.2 default).wasSet
            then reqInsert m b.2 b.1 else m) = m
          rw [if_neg hcond]
        rw [hstep, ih m hm]

/-- A list whose members are all `A` or `B`, containing both, strictly
sorted by a relation that orders `A` before `B`, is exactly `[A, B]`. -/
theorem pair_list_eq (l : List (Str × Nat)) (A B : Str × Nat)
    (hmemA : A ∈ l) (hmemB : B ∈ l)
    (hall : ∀ x ∈ l, x = A ∨ x = B)
    (hpw : l.Pairwise (fun x y => strLt x.1 y.1 = true))
    (hAB : strLt A.1 B.1 = true) :
    l = [A, B] := by
  have hABne : A ≠ B := by
    intro he; rw [he, strLt_irrefl] at hAB; cases hAB
  cases l with
  | nil => cases hmemA
  | cons x l1 =>
    cases l1 with
    | nil =>
      simp only [List.mem_singleton] at hmemA hmemB
      exact absurd (hmemA.trans hmemB.symm) hABne
    | cons y l2 =>
      rw [List.pairwise_cons] at hpw
      obtain ⟨hx, hpw2⟩ := hpw
      rw [List.pairwise_cons] at hpw2
      obtain ⟨hy, _⟩ := hpw2
      have hxy : strLt x.1 y.1 = true := hx y (by simp)
      have hxyne : x ≠ y := by
        intro he; rw [he, strLt_irrefl] at hxy; cases hxy
      have hxAB := hall x (by simp)
      have hyAB := hall y (by simp)
      have hl2 : l2 = [] := by
        cases l2 with
        | nil => rfl
        | cons z _ =>
          exfalso
          have hxz : strLt x.1 z.1 = true := hx z (by simp)
          have hyz : strLt y.1 z.1 = true := hy z (by simp)
          rcases hall z (by simp) with rfl | rfl
          · rcases hxAB with rfl | rfl
            · rw [strLt_irrefl] at hxz; cases hxz
            · exact strLt_asymm _ _ hAB hxz
          · rcases hxAB with rfl | rfl
            · rcases hyAB with rfl | rfl
              · exact hxyne rfl
              · rw [strLt_irrefl] at hyz; cases hyz
            · rw [strLt_irrefl] at hxz; cases hxz
      subst hl2
      rcases hxAB with rfl | rfl
      · rcases hyAB with rfl | rfl
        · exact absurd rfl hxyne
        · rfl
      · rcases hyAB with rfl | rfl
        · exact (strLt_asymm _ _ hAB hxy).elim
        · exact absurd rfl hxyne

/-- Any member of a comma-joined label list appears as a contiguous
segment of the joined string. -/
theorem joinComma_mem (l : Str) :
    ∀ (ls : List Str), l ∈ ls → ∃ a b, joinComma ls = a ++ l ++ b := by
  intro ls
  induction ls with
  | nil => intro h; cases h
  | cons x rest ih =>
    intro h
    cases rest with
    | nil =>
      simp only [List.mem_singleton] at h
      subst h
      exact ⟨[], [], by simp [joinComma]⟩
    | cons y rest2 =>
      rcases List.mem_cons.mp h with rfl | h2
      · exact ⟨[], ',' :: ' ' :: joinComma (y :: rest2), by rw [joinComma]; simp⟩
      · obtain ⟨a, b, hab⟩ := ih h2
        exact ⟨x ++ ',' :: ' ' :: a, b, by rw [joinComma, hab]; simp⟩

/-- C6: a required argument declared with both a long name `L` and a
short name `S`, whose slot was never set during the scan, makes the
parse fail and puts into the missing-required report one label keyed by
slot identity that merges both aliases: `--L or -S` (the long form
first, in the registry's iteration order); the label appears verbatim
in the aggregated error string. -/
theorem c6_missing_required_aliases (st : ParserState) (args : List Str)
    (L S : Str) (k : Nat) (o : ParseOut)
    (hpw : st.bindings.Pairwise (fun a b => strLt a.1 b.1 = true))
    (hb1 : mapFind st.bindings ('-' :: '-' :: L) = some k)
    (hb2 : mapFind st.bindings ('-' :: S) = some k)
    (honly : ∀ p ∈ st.bindings, p.2 = k →
      p.1 = '-' :: '-' :: L ∨ p.1 = '-' :: S)
    (horder : strLt ('-' :: '-' :: L) ('-' :: S) = true)
    (hp : parse st args = .normal o)
    (hreq : (o.slots.getD k default).required = true)
    (hnset : (o.slots.getD k default).wasSet = false) :
    o.success = false ∧
    (k, ('-' :: '-' :: L) ++ lit " or " ++ ('-' :: S)) ∈ o.req ∧
    ∃ pre post, o.errorMsg =
      pre ++ (('-' :: '-' :: L) ++ lit " or " ++ ('-' :: S)) ++ post := by
  obtain rfl : o = parseCore st args := parse_normal st args o hp
  have hfilter : st.bindings.filter (fun p => p.2 = k) =
      [(('-' :: '-' :: L : Str), k), (('-' :: S : Str), k)] := by
    apply pair_list_eq _ _ _ ?_ ?_ ?_ ?_ horder
    · exact List.mem_filter.mpr ⟨mapFind_mem _ _ _ hb1, by simp⟩
    · exact List.mem_filter.mpr ⟨mapFind_mem _ _ _ hb2, by simp⟩
    · intro x hx
      obtain ⟨hxm, hxk⟩ := List.mem_filter.mp hx
      have hxk' : x.2 = k := by simpa using hxk
      rcases honly x hxm hxk' with h | h
      · left
        calc x = (x.1, x.2) := rfl
          _ = ('-' :: '-' :: L, k) := by rw [h, hxk']
      · right
        calc x = (x.1, x.2) := rfl
          _ = ('-' :: S, k) := by rw [h, hxk']
    · exact hpw.filter _
  have hlook : reqLookup (parseCore st args).req k =
      some (('-' :: '-' :: L) ++ lit " or " ++ ('-' :: S)) := by
    show reqLookup (buildReq (parseCore st args).slots st.bindings) k = _
    rw [buildReq,
      buildReq_fold (parseCore st args).slots k hreq hnset st.bindings []
        (by simp), hfilter]
    rfl
  have hmem := reqLookup_mem k _ _ hlook
  have hreqne : (parseCore st args).req ≠ [] := by
    intro he; rw [he] at hmem; cases hmem
  have hsucc : (parseCore st args).success = false := by
    rcases Bool.eq_false_or_eq_true (parseCore st args).success with h | h
    · obtain ⟨_, hq⟩ := (parseCore_success st args).mp h
      exact absurd hq hreqne
    · exact h
  have hmsg := parseCore_errorMsg st args
  rw [if_neg hreqne, joinLines_append_last] at hmsg
  have hlm : (('-' :: '-' :: L) ++ lit " or " ++ ('-' :: S)) ∈
      (parseCore st args).req.map (fun p => p.2) :=
    List.mem_map.mpr ⟨_, hmem, rfl⟩
  obtain ⟨a, b, hab⟩ := joinComma_mem _ _ hlm
  refine ⟨hsucc, hmem, ?_⟩
  refine ⟨joinLines (parseCore st args).errLines ++
    (if (parseCore st args).errLines = [] then [] else ['\n']) ++
    lit "The following required arguments was not set: " ++ a, b, ?_⟩
  rw [hmsg, summaryLine, hab]
  simp [List.append_assoc]

/-- Witness for C6: the parser declaring the required `--count` and
`-c`, run on the empty input, fails with the merged label
`--count or -c` in its missing-required report and error string. -/
theorem c6_witness :
    (normalOut (parse c6Parser [])).success = false ∧
    (0, (('-' :: '-' :: lit "count") ++ lit " or " ++ ('-' :: lit "c"))) ∈
      (normalOut (parse c6Parser [])).req ∧
    ∃ pre post, (normalOut (parse c6Parser [])).errorMsg =
      pre ++ (('-' :: '-' :: lit "count") ++ lit " or " ++ ('-' :: lit "c")) ++ post :=
  c6_missing_required_aliases c6Parser [] (lit "count") (lit "c") 0
    (normalOut (parse c6Parser [])) (by decide) (by decide) (by decide)
    (by decide) (by decide) rfl (by decide) (by decide)

end Argparser
